import Mathlib

/-!
Verification of the query-construction and naming-classification engine of the
cradle-robbing repository (frontend/src/components/Explorer.tsx and
frontend/src/components/TableSelector.tsx).

Strings are modelled as lists of characters (`JStr`); JavaScript string
operations (split, trim, toLowerCase, includes, endsWith, startsWith) are
embedded as executable functions on `JStr`.  JavaScript objects keyed by
strings are modelled as association lists in property-insertion order, with
`jsObjectEntries` reproducing the enumeration order of `Object.entries`
(canonical integer-index keys first, in ascending numeric order, then the
remaining keys in insertion order).  `localeCompare` in the default locale and
the default `Array.prototype.sort` comparator are modelled as code-point
lexicographic comparison; `toLowerCase`/`toUpperCase` are modelled by the
ASCII case maps (no claim in scope distinguishes these from the full Unicode
versions).  Numbers held in builder state are modelled as integers.
-/

abbrev JStr := List Char

/-- Character list of a string literal. -/
def chars (s : String) : JStr := s.data

/-- Is this character whitespace for JavaScript `trim` / `Number` coercion
(ECMAScript WhiteSpace or LineTerminator)? -/
def jsWhitespaceCh (c : Char) : Bool :=
  c.toNat = 9 || c.toNat = 10 || c.toNat = 11 || c.toNat = 12 || c.toNat = 13 ||
  c.toNat = 32 || c.toNat = 160 || c.toNat = 0x1680 ||
  (0x2000 ≤ c.toNat && c.toNat ≤ 0x200A) || c.toNat = 0x2028 || c.toNat = 0x2029 ||
  c.toNat = 0x202F || c.toNat = 0x205F || c.toNat = 0x3000 || c.toNat = 0xFEFF

/-- JavaScript `String.prototype.trim` (both ends). -/
def jsTrim (s : JStr) : JStr :=
  ((s.dropWhile jsWhitespaceCh).reverse.dropWhile jsWhitespaceCh).reverse

/-- JavaScript `String.prototype.toLowerCase`, ASCII fragment. -/
def jsToLower (s : JStr) : JStr := s.map Char.toLower

/-- Does `s` start with `pat`?  (`String.prototype.startsWith`.) -/
def startsWithL : JStr → JStr → Bool
  | [], _ => true
  | _ :: _, [] => false
  | p :: ps, c :: cs => p = c && startsWithL ps cs

/-- JavaScript `String.prototype.includes`: substring containment. -/
def jsIncludes (s pat : JStr) : Bool := s.tails.any (fun t => startsWithL pat t)

/-- JavaScript `String.prototype.endsWith`: suffix test. -/
def jsEndsWith (s pat : JStr) : Bool := startsWithL pat.reverse s.reverse

/-- JavaScript `String.prototype.split` with a single-character separator. -/
def splitCh (c : Char) : JStr → List JStr
  | [] => [[]]
  | x :: xs =>
    let r := splitCh c xs
    if x = c then [] :: r
    else
      match r with
      | [] => [[x]]
      | h :: t => (x :: h) :: t

/-- JavaScript `Array.prototype.join` with separator `sep`. -/
def joinSep (sep : JStr) : List JStr → JStr
  | [] => []
  | [x] => x
  | x :: y :: rest => x ++ sep ++ joinSep sep (y :: rest)

/-- Truthiness of an optional string (`undefined` and the empty string are
falsy). -/
def jsTruthyStr : Option JStr → Bool
  | none => false
  | some s => !s.isEmpty

/-- JavaScript `x || dflt` on an optional string. -/
def jsOrElse (o : Option JStr) (dflt : JStr) : JStr :=
  match o with
  | some s => if s.isEmpty then dflt else s
  | none => dflt

/-! ### JavaScript numeric coercion

`parseTableName` tests its first three segments with `!isNaN(Number(seg))`,
so we embed the `StringNumericLiteral` grammar of `Number`:
after trimming, the empty string converts to `0`, and otherwise the string
must be a signed decimal literal (with optional fraction and exponent, or
`Infinity`) or an unsigned binary/octal/hex literal. -/

def isHexDigitCh (c : Char) : Bool :=
  c.isDigit || ('a' ≤ c && c ≤ 'f') || ('A' ≤ c && c ≤ 'F')

def isOctDigitCh (c : Char) : Bool := '0' ≤ c && c ≤ '7'

def isBinDigitCh (c : Char) : Bool := c = '0' || c = '1'

/-- Nonempty all-decimal-digit run (`DecimalDigits`). -/
def decDigits (l : JStr) : Bool := !l.isEmpty && l.all Char.isDigit

/-- Split at the first exponent marker `e`/`E`. -/
def splitAtExpCh : JStr → JStr × Option JStr
  | [] => ([], none)
  | c :: cs =>
    if c = 'e' || c = 'E' then ([], some cs)
    else
      let r := splitAtExpCh cs
      (c :: r.1, r.2)

/-- Split at the first decimal point. -/
def splitAtDotCh : JStr → JStr × Option JStr
  | [] => ([], none)
  | c :: cs =>
    if c = '.' then ([], some cs)
    else
      let r := splitAtDotCh cs
      (c :: r.1, r.2)

/-- `SignedInteger`: optional sign followed by decimal digits. -/
def signedDecDigits : JStr → Bool
  | '+' :: r => decDigits r
  | '-' :: r => decDigits r
  | r => decDigits r

/-- Mantissa of a decimal literal: `DecimalDigits [. [DecimalDigits]]` or
`. DecimalDigits`. -/
def mantissaOk (l : JStr) : Bool :=
  match splitAtDotCh l with
  | (w, none) => decDigits w
  | (w, some f) =>
    if w.isEmpty then decDigits f else decDigits w && (f.isEmpty || decDigits f)

/-- `StrUnsignedDecimalLiteral`: `Infinity`, or mantissa with optional
exponent part. -/
def strUnsignedDec (l : JStr) : Bool :=
  l = chars "Infinity" ||
  (match splitAtExpCh l with
   | (m, none) => mantissaOk m
   | (m, some e) => mantissaOk m && signedDecDigits e)

/-- `StrNumericLiteral` (for a nonempty trimmed string): signed decimal
literal, or `0b`/`0o`/`0x` literal. -/
def strNumericBody : JStr → Bool
  | '+' :: r => strUnsignedDec r
  | '-' :: r => strUnsignedDec r
  | '0' :: c :: r =>
    if c = 'b' || c = 'B' then !r.isEmpty && r.all isBinDigitCh
    else if c = 'o' || c = 'O' then !r.isEmpty && r.all isOctDigitCh
    else if c = 'x' || c = 'X' then !r.isEmpty && r.all isHexDigitCh
    else strUnsignedDec ('0' :: c :: r)
  | l => strUnsignedDec l

/-- The test `!isNaN(Number(s))` applied by `parseTableName` to each of the
first three underscore segments. -/
def jsNumberNotNaN (s : JStr) : Bool :=
  let t := jsTrim s
  t.isEmpty || strNumericBody t

/-- A strict non-negative-integer test: nonempty and all decimal digits.
This is a second, spec-side definition, following the words of the spec
(section 4.2, "a strict non-negative-integer test"), to be compared with the
coercion test the source actually applies. -/
def strictNonNegIntTest (s : JStr) : Bool := !s.isEmpty && s.all Char.isDigit

/-! ### NameClassifier: parseTableName (TableSelector.tsx, lines 29-44) -/

structure ParsedTable where
  name : JStr
  year : Option JStr := none
  month : Option JStr := none
  day : Option JStr := none
  type : Option JStr := none
deriving DecidableEq

/-- `parseTableName` from TableSelector.tsx: split on underscore; when there
are at least three segments and each of the first three passes
`!isNaN(Number(seg))`, populate `year`/`month`/`day` from them and `type`
from the rest rejoined with underscores. -/
def parseTableName (table : JStr) : ParsedTable :=
  match splitCh '_' table with
  | y :: m :: d :: rest =>
    if jsNumberNotNaN y && jsNumberNotNaN m && jsNumberNotNaN d then
      { name := table, year := some y, month := some m, day := some d,
        type := some (joinSep (chars "_") rest) }
    else { name := table }
  | _ => { name := table }

example : parseTableName (chars "2024_03_15_sales") =
    { name := chars "2024_03_15_sales", year := some (chars "2024"),
      month := some (chars "03"), day := some (chars "15"),
      type := some (chars "sales") } := by decide

example : parseTableName (chars "random_table") = { name := chars "random_table" } := by
  decide

example : jsNumberNotNaN (chars "-1") = true := by decide
example : jsNumberNotNaN (chars "1.5e3") = true := by decide
example : jsNumberNotNaN (chars "0x1f") = true := by decide
example : jsNumberNotNaN (chars "") = true := by decide
example : jsNumberNotNaN (chars " 12 ") = true := by decide
example : jsNumberNotNaN (chars "sales") = false := by decide
example : jsNumberNotNaN (chars "12a") = false := by decide
example : jsNumberNotNaN (chars "1.2.3") = false := by decide
example : jsNumberNotNaN (chars "Infinity") = true := by decide

/-! ### QueryStateCompiler: data model (types.d.ts) and updateQueryFromState
(TableSelector.tsx, lines 240-312) -/

inductive JoinType | INNER | LEFT | RIGHT | FULL
deriving DecidableEq

def JoinType.render : JoinType → JStr
  | .INNER => chars "INNER"
  | .LEFT => chars "LEFT"
  | .RIGHT => chars "RIGHT"
  | .FULL => chars "FULL"

inductive ComparisonOperator | eqOp | neOp | gtOp | ltOp | geOp | leOp | likeOp | inOp
deriving DecidableEq

def ComparisonOperator.render : ComparisonOperator → JStr
  | .eqOp => chars "="
  | .neOp => chars "!="
  | .gtOp => chars ">"
  | .ltOp => chars "<"
  | .geOp => chars ">="
  | .leOp => chars "<="
  | .likeOp => chars "LIKE"
  | .inOp => chars "IN"

inductive Conjunction | AND | OR
deriving DecidableEq

def Conjunction.render : Conjunction → JStr
  | .AND => chars "AND"
  | .OR => chars "OR"

inductive AggregationType | COUNT | SUM | AVG | MIN | MAX | GROUP_CONCAT
deriving DecidableEq

inductive OrderDirection | ASC | DESC
deriving DecidableEq

def OrderDirection.render : OrderDirection → JStr
  | .ASC => chars "ASC"
  | .DESC => chars "DESC"

/-- A condition value (`value: any` in types.d.ts), restricted to the JSON
scalars the builder UI produces. -/
inductive JSValue
  | str (s : JStr)
  | num (n : Int)
  | bool (b : Bool)
  | null
deriving DecidableEq

/-- The character of one decimal digit (argument always below 10). -/
def decDigitCh : Nat → Char
  | 0 => '0' | 1 => '1' | 2 => '2' | 3 => '3' | 4 => '4'
  | 5 => '5' | 6 => '6' | 7 => '7' | 8 => '8' | _ => '9'

/-- The character of one lowercase hex digit (argument always below 16). -/
def hexDigitCh : Nat → Char
  | 0 => '0' | 1 => '1' | 2 => '2' | 3 => '3' | 4 => '4'
  | 5 => '5' | 6 => '6' | 7 => '7' | 8 => '8' | 9 => '9'
  | 10 => 'a' | 11 => 'b' | 12 => 'c' | 13 => 'd' | 14 => 'e' | _ => 'f'

/-- Decimal digits of a natural number, fuel-structured so that the kernel
can evaluate it (the fuel never runs out when it starts at `n + 1`). -/
def natCharsCore : Nat → Nat → JStr → JStr
  | 0, _, acc => acc
  | fuel + 1, n, acc =>
    if n < 10 then decDigitCh n :: acc
    else natCharsCore fuel (n / 10) (decDigitCh (n % 10) :: acc)

def natChars (n : Nat) : JStr := natCharsCore (n + 1) n []

/-- JavaScript template-literal rendering of an integer. -/
def intToChars : Int → JStr
  | Int.ofNat n => natChars n
  | Int.negSucc m => '-' :: natChars (m + 1)

/-- Four-digit lowercase hex rendering, for JSON control-character escapes. -/
def hex4 (n : Nat) : JStr :=
  [hexDigitCh (n / 4096 % 16), hexDigitCh (n / 256 % 16),
   hexDigitCh (n / 16 % 16), hexDigitCh (n % 16)]

/-- `JSON.stringify` escape of one character inside a string literal. -/
def jsonEscapeChar (c : Char) : JStr :=
  if c = '"' then ['\\', '"']
  else if c = '\\' then ['\\', '\\']
  else if c = '\n' then ['\\', 'n']
  else if c = '\r' then ['\\', 'r']
  else if c = '\t' then ['\\', 't']
  else if c.toNat = 8 then ['\\', 'b']
  else if c.toNat = 12 then ['\\', 'f']
  else if c.toNat < 32 then '\\' :: 'u' :: hex4 c.toNat
  else [c]

/-- `JSON.stringify` of a scalar value. -/
def jsonStringify : JSValue → JStr
  | .str s => '"' :: (s.flatMap jsonEscapeChar) ++ ['"']
  | .num n => intToChars n
  | .bool true => chars "true"
  | .bool false => chars "false"
  | .null => chars "null"

/-- Template-literal coercion of a value to text (used when `isField` makes
the compiler emit the value verbatim). -/
def jsValueText : JSValue → JStr
  | .str s => s
  | .num n => intToChars n
  | .bool true => chars "true"
  | .bool false => chars "false"
  | .null => chars "null"

structure QueryField where
  fieldName : JStr
  «alias» : Option JStr := none
  tableAlias : Option JStr := none
  expression : Option JStr := none
  aggregation : Option AggregationType := none
deriving DecidableEq

structure JoinCondition where
  leftField : JStr
  operator : ComparisonOperator
  rightField : JStr
deriving DecidableEq

structure JoinClause where
  type : JoinType
  table : JStr
  tableAlias : JStr
  conditions : List JoinCondition
deriving DecidableEq

structure WhereCondition where
  field : JStr
  operator : ComparisonOperator
  value : JSValue
  isField : Bool := false
deriving DecidableEq

structure WhereClause where
  conditions : List WhereCondition
  conjunction : Conjunction
deriving DecidableEq

structure GroupByClause where
  fields : List JStr
  having : Option WhereClause := none
deriving DecidableEq

structure OrderByClause where
  field : JStr
  direction : OrderDirection
deriving DecidableEq

/-- `QueryBuilderState` (types.d.ts).  `where` is a Lean keyword, so that
field is named `whereClause`. -/
structure QueryBuilderState where
  selectedFields : List QueryField
  joins : List JoinClause
  whereClause : Option WhereClause := none
  groupBy : Option GroupByClause := none
  orderBy : Option (List OrderByClause) := none
  limit : Option Int := none
  offset : Option Int := none
  distinct : Bool := false
deriving DecidableEq

/-- Truthiness of an optional number (`undefined` and `0` are falsy). -/
def jsTruthyInt : Option Int → Bool
  | none => false
  | some n => n != 0

/-- The field reference: `tableAlias.fieldName` when `tableAlias` is truthy,
else the bare `fieldName`. -/
def jsFieldRef (f : QueryField) : JStr :=
  match f.tableAlias with
  | some ta => if ta.isEmpty then f.fieldName else ta ++ chars "." ++ f.fieldName
  | none => f.fieldName

/-- The output column alias under auto-aliasing:
`field.alias || fieldName_(field.tableAlias || "main")`. -/
def jsFieldAlias (f : QueryField) : JStr :=
  jsOrElse f.«alias» (f.fieldName ++ chars "_" ++ jsOrElse f.tableAlias (chars "main"))

/-- One entry of the SELECT field list. -/
def renderField (autoAlias : Bool) (f : QueryField) : JStr :=
  if autoAlias then jsFieldRef f ++ chars " AS " ++ jsFieldAlias f
  else jsFieldRef f

/-- One join line: `TYPE JOIN table AS alias ON cond AND cond ...`. -/
def renderJoin (j : JoinClause) : JStr :=
  j.type.render ++ chars " JOIN " ++ j.table ++ chars " AS " ++ j.tableAlias ++
    chars " ON " ++
    joinSep (chars " AND ")
      (j.conditions.map fun c =>
        c.leftField ++ chars " " ++ c.operator.render ++ chars " " ++ c.rightField)

/-- One WHERE/HAVING condition: value verbatim when `isField`, else
JSON-stringified. -/
def renderCond (c : WhereCondition) : JStr :=
  c.field ++ chars " " ++ c.operator.render ++ chars " " ++
    (if c.isField then jsValueText c.value else jsonStringify c.value)

/-- Conditions joined with the single declared conjunction. -/
def renderCondList (w : WhereClause) : JStr :=
  joinSep (chars " " ++ w.conjunction.render ++ chars " ")
    (w.conditions.map renderCond)

/-- The `SELECT ... FROM` head.  The `DISTINCT` flag is read from the
component state captured by the `useCallback` closure (`state.distinct` in
the source), NOT from the `newState` argument; it is passed here as
`stateDistinct`. -/
def selectPart (stateDistinct autoAlias : Bool) (st : QueryBuilderState) : JStr :=
  chars "SELECT" ++ (if stateDistinct then chars " DISTINCT" else []) ++
    chars "\n  " ++
    joinSep (chars ",\n  ") (st.selectedFields.map (renderField autoAlias)) ++
    chars "\nFROM $\x7bTABLE\x7d"

def joinsPart (st : QueryBuilderState) : JStr :=
  if st.joins.isEmpty then []
  else chars "\n" ++ joinSep (chars "\n") (st.joins.map renderJoin)

def wherePart (st : QueryBuilderState) : JStr :=
  match st.whereClause with
  | some w => if w.conditions.isEmpty then [] else chars "\nWHERE " ++ renderCondList w
  | none => []

def groupPart (st : QueryBuilderState) : JStr :=
  match st.groupBy with
  | some g =>
    if g.fields.isEmpty then []
    else
      chars "\nGROUP BY " ++ joinSep (chars ", ") g.fields ++
        (match g.having with
         | some h => chars "\nHAVING " ++ renderCondList h
         | none => [])
  | none => []

def orderPart (st : QueryBuilderState) : JStr :=
  match st.orderBy with
  | some os =>
    if os.isEmpty then []
    else
      chars "\nORDER BY " ++
        joinSep (chars ", ")
          (os.map fun o => o.field ++ chars " " ++ o.direction.render)
  | none => []

def limitPart (st : QueryBuilderState) : JStr :=
  if jsTruthyInt st.limit then
    chars "\nLIMIT " ++ intToChars (st.limit.getD 0) ++
      (if jsTruthyInt st.offset then chars "\nOFFSET " ++ intToChars (st.offset.getD 0)
       else [])
  else []

/-- `updateQueryFromState` (TableSelector.tsx, lines 240-312), as the query
text handed to `onQueryChange`.  Empty selection short-circuits to the empty
string; otherwise the clause blocks are appended in source order. -/
def updateQueryFromState (stateDistinct autoAlias : Bool)
    (newState : QueryBuilderState) : JStr :=
  if newState.selectedFields.isEmpty then []
  else
    selectPart stateDistinct autoAlias newState ++ joinsPart newState ++
      wherePart newState ++ groupPart newState ++ orderPart newState ++
      limitPart newState

example :
    updateQueryFromState false true
      { selectedFields := [{ fieldName := chars "id" }], joins := [] } =
    chars "SELECT\n  id AS id_main\nFROM $\x7bTABLE\x7d" := by decide

example :
    updateQueryFromState true false
      { selectedFields := [{ fieldName := chars "id" }],
        joins := [{ type := .LEFT, table := chars "t2", tableAlias := chars "b",
                    conditions := [{ leftField := chars "a.x", operator := .eqOp,
                                     rightField := chars "b.y" }] }],
        whereClause := some { conditions := [{ field := chars "a.x", operator := .gtOp,
                                               value := .num 3 }],
                              conjunction := .AND },
        limit := some 10, offset := some 5 } =
    chars "SELECT DISTINCT\n  id\nFROM $\x7bTABLE\x7d\nLEFT JOIN t2 AS b ON a.x = b.y\nWHERE a.x > 3\nLIMIT 10\nOFFSET 5" := by
  decide

/-! ### FieldInserter: insertFieldIntoQuery (Explorer.tsx, lines 273-293) -/

/-- The qualifier prefix: backtick-quoted `dataset.table` when both context
strings are truthy, else empty. -/
def dsTablePfx (ds tbl : Option JStr) : JStr :=
  if jsTruthyStr ds && jsTruthyStr tbl then
    chars "`" ++ ds.getD [] ++ chars "." ++ tbl.getD [] ++ chars "`"
  else []

/-- `insertFieldIntoQuery` from Explorer.tsx: a textual splice keyed on
case-insensitive containment of `select` and on whether the trimmed text
ends with `select`. -/
def insertFieldIntoQuery (selectedDataset selectedTable : Option JStr)
    (query fieldName : JStr) : JStr :=
  let pfx := dsTablePfx selectedDataset selectedTable
  let lowq := jsToLower query
  let isNewSelect := !(jsIncludes lowq (chars "select"))
  let hasExistingFields :=
    jsIncludes lowq (chars "select") && !(jsEndsWith (jsTrim lowq) (chars "select"))
  if query.length > 0 then
    if isNewSelect then chars "SELECT " ++ pfx ++ chars "." ++ fieldName
    else if hasExistingFields then query ++ chars ",\n  " ++ pfx ++ chars "." ++ fieldName
    else query ++ chars " " ++ pfx ++ chars "." ++ fieldName
  else chars "SELECT " ++ pfx ++ chars "." ++ fieldName

example :
    insertFieldIntoQuery (some (chars "d")) (some (chars "t")) [] (chars "id") =
    chars "SELECT `d.t`.id" := by decide

example :
    insertFieldIntoQuery (some (chars "d")) (some (chars "t"))
      (chars "SELECT `d.t`.id") (chars "name") =
    chars "SELECT `d.t`.id,\n  `d.t`.name" := by decide

/-! ### JavaScript object enumeration order and parseInt -/

/-- Numeric value of an all-digit character list. -/
def natOfDigits (l : JStr) : Nat := l.foldl (fun a c => a * 10 + (c.toNat - 48)) 0

/-- Is `s` a canonical array-index property key (the ECMAScript integer-index
test that controls object property enumeration order)? -/
def isArrayIndexKey (s : JStr) : Bool :=
  !s.isEmpty && s.all Char.isDigit && (s = ['0'] || s.head? != some '0') &&
    natOfDigits s < 4294967295

def entKeyLe {β : Type} (p q : JStr × β) : Prop :=
  natOfDigits p.1 ≤ natOfDigits q.1

instance {β : Type} : DecidableRel (@entKeyLe β) := fun _ _ => Nat.decLe _ _

/-- Enumeration order of `Object.entries` on an object whose properties were
created in the order of the list: integer-index keys first, ascending by
numeric value, then the remaining keys in insertion order. -/
def jsObjectEntries {β : Type} (l : List (JStr × β)) : List (JStr × β) :=
  List.insertionSort entKeyLe (l.filter fun p => isArrayIndexKey p.1) ++
    l.filter (fun p => !isArrayIndexKey p.1)

/-- `parseInt(s, 10)`: skip leading whitespace, optional sign, then leading
decimal digits; `none` models `NaN`. -/
def jsParseInt10 (s : JStr) : Option Int :=
  let lead : JStr → Option Nat := fun r =>
    let ds := r.takeWhile Char.isDigit
    if ds.isEmpty then none else some (natOfDigits ds)
  match s.dropWhile jsWhitespaceCh with
  | '+' :: r => (lead r).map (fun n => (n : Int))
  | '-' :: r => (lead r).map (fun n => -(n : Int))
  | r => (lead r).map (fun n => (n : Int))

/-- Code-point lexicographic comparison, modelling `localeCompare` in the
default locale and the default `sort` comparator on these ASCII names. -/
def lexLe : JStr → JStr → Bool
  | [], _ => true
  | _ :: _, [] => false
  | a :: as, b :: bs => if a < b then true else if b < a then false else lexLe as bs

/-! ### Grouper: groupTablesByDate (Explorer.tsx, lines 81-114) -/

/-- Append `v` to the bucket for key `k`, creating the bucket at the end on
first use (JS object property creation order). -/
def pushAssoc (k : JStr) (v : JStr) : List (JStr × List JStr) → List (JStr × List JStr)
  | [] => [(k, [v])]
  | (k0, vs) :: rest =>
    if k0 = k then (k0, vs ++ [v]) :: rest else (k0, vs) :: pushAssoc k v rest

/-- Two-level bucket insert for `groups[year][month].push(table)`. -/
def pushNested (y m t : JStr) :
    List (JStr × List (JStr × List JStr)) → List (JStr × List (JStr × List JStr))
  | [] => [(y, [(m, [t])])]
  | (k, ms) :: rest =>
    if k = y then (k, pushAssoc m t ms) :: rest else (k, ms) :: pushNested y m t rest

/-- The `groups` object accumulated by `groupTablesByDate`: any table with at
least three underscore segments is bucketed under segment 0 (year) and
segment 1 (month), with no numeric test. -/
def buildTableGroups (ts : List JStr) : List (JStr × List (JStr × List JStr)) :=
  ts.foldl
    (fun acc t =>
      match splitCh '_' t with
      | y :: m :: _ :: _ => pushNested y m t acc
      | _ => acc)
    []

/-- A `TableGroup`; `months` is the JS object produced by
`Object.fromEntries`, recorded in property-creation order (the sorted entry
order).  Its observable enumeration order is `jsObjectEntries months`. -/
structure TableGroup where
  year : JStr
  months : List (JStr × List JStr)
deriving DecidableEq

/-- Year comparator: `b[0].localeCompare(a[0]) ≤ 0`, i.e. descending. -/
def yearRel (p q : JStr × List (JStr × List JStr)) : Prop := lexLe q.1 p.1 = true

instance : DecidableRel yearRel := fun _ _ => instDecidableEqBool _ _

/-- Month comparator: `parseInt(b[0]) - parseInt(a[0]) ≤ 0`, i.e. descending
numeric; a `NaN` comparator result is treated as `0` (a tie) per the
ECMAScript sort specification. -/
def monthLe (a b : JStr) : Bool :=
  match jsParseInt10 a, jsParseInt10 b with
  | some x, some y => decide (y ≤ x)
  | _, _ => true

def monthRel (p q : JStr × List JStr) : Prop := monthLe p.1 q.1 = true

instance : DecidableRel monthRel := fun _ _ => instDecidableEqBool _ _

/-- `groupTablesByDate` from Explorer.tsx: bucket by segments 0/1, enumerate
the groups object, sort years descending by string comparison, and for each
year enumerate the months object and sort its entries descending by
`parseInt` before rebuilding an object from them. -/
def groupTablesByDate (ts : List JStr) : List TableGroup :=
  (List.insertionSort yearRel (jsObjectEntries (buildTableGroups ts))).map
    fun p => { year := p.1, months := List.insertionSort monthRel (jsObjectEntries p.2) }

/-- Does table `t` occur in some month bucket of the grouped output? -/
def tableAppears (t : JStr) (gs : List TableGroup) : Bool :=
  gs.any fun g => g.months.any fun p => p.2.any (fun s => s == t)

example :
    groupTablesByDate [chars "2024_01_a", chars "2024_02_b", chars "2023_12_c"] =
    [{ year := chars "2024",
       months := [(chars "02", [chars "2024_02_b"]), (chars "01", [chars "2024_01_a"])] },
     { year := chars "2023", months := [(chars "12", [chars "2023_12_c"])] }] := by decide

/-! ### Grouper: groupDatasets (Explorer.tsx, lines 116-166) -/

/-- The ordered prefix-to-category mapping (`prefixMap` in the source; its
keys are not integer-index strings, so `Object.entries` preserves this
declaration order). -/
def prefixMap : List (JStr × JStr) :=
  [(chars "docker_listings", chars "Docker Listings"),
   (chars "docker_product", chars "Docker Products"),
   (chars "docker_sellers", chars "Docker Sellers"),
   (chars "ck", chars "Card Kingdom"),
   (chars "fab", chars "Flesh and Blood"),
   (chars "mtg", chars "Magic the Gathering"),
   (chars "poke", chars "Pokemon"),
   (chars "ban", chars "BAN"),
   (chars "yugi", chars "Yu-Gi-Oh!"),
   (chars "yugioh", chars "Yu-Gi-Oh!")]

/-- Capitalize: `s.charAt(0).toUpperCase() + s.slice(1)` (ASCII case map). -/
def capFirst : JStr → JStr
  | [] => []
  | c :: r => c.toUpper :: r

/-- The category assigned to one dataset: first matching prefix in
declaration order, else the capitalized first underscore segment when the
name contains an underscore, else the literal `Other`. -/
def classifyDataset (d : JStr) : JStr :=
  match prefixMap.find? (fun pc => startsWithL pc.1 d) with
  | some pc => pc.2
  | none =>
    if d.contains '_' then capFirst ((splitCh '_' d).headD [])
    else chars "Other"

def buildDatasetGroups (ds : List JStr) : List (JStr × List JStr) :=
  ds.foldl (fun acc d => pushAssoc (classifyDataset d) d acc) []

structure DatasetGroup where
  category : JStr
  datasets : List JStr
deriving DecidableEq

/-- Category comparator: the literal `Other` sorts last, otherwise
alphabetical (`localeCompare`). -/
def catLe (a b : JStr) : Bool :=
  b = chars "Other" || (a ≠ chars "Other" && lexLe a b)

def catRel (p q : JStr × List JStr) : Prop := catLe p.1 q.1 = true

instance : DecidableRel catRel := fun _ _ => instDecidableEqBool _ _

def strRel (a b : JStr) : Prop := lexLe a b = true

instance : DecidableRel strRel := fun _ _ => instDecidableEqBool _ _

/-- `groupDatasets` from Explorer.tsx: bucket by `classifyDataset`, enumerate
the groups object, sort categories alphabetically with `Other` last, and
sort dataset names alphabetically within each category. -/
def groupDatasets (ds : List JStr) : List DatasetGroup :=
  (List.insertionSort catRel (jsObjectEntries (buildDatasetGroups ds))).map
    fun p => { category := p.1, datasets := List.insertionSort strRel p.2 }

example :
    groupDatasets [chars "mtg_cards", chars "other_thing", chars "ck_prices"] =
    [{ category := chars "Card Kingdom", datasets := [chars "ck_prices"] },
     { category := chars "Magic the Gathering", datasets := [chars "mtg_cards"] },
     { category := chars "Other", datasets := [chars "other_thing"] }] := by decide

/-! ### Line analysis for clause containment

The compiled query is line structured: every clause starts a fresh line.
`hasClauseLine pat s` holds when some line of `s` starts with `pat`, which is
how "the compiled text contains a LIMIT/OFFSET clause" is read. -/

def anyLineAux (pat : JStr) : JStr → Bool
  | [] => false
  | c :: rest => (c = '\n' && startsWithL pat rest) || anyLineAux pat rest

/-- Some line of `s` (the start of `s`, or the text after any newline)
starts with `pat`. -/
def hasClauseLine (pat s : JStr) : Bool := startsWithL pat s || anyLineAux pat s

/-- `nlFreeB s` : `s` contains no newline. -/
def nlFreeB (s : JStr) : Bool := s.all (fun c => c != '\n')

theorem nlFreeB_iff {s : JStr} : nlFreeB s = true ↔ '\n' ∉ s := by
  simp [nlFreeB]
  constructor
  · intro h hm; exact (h '\n' hm) rfl
  · intro h c hc he; exact h (he ▸ hc)

theorem startsWithL_append_nl (pat s t : JStr) (hp : '\n' ∉ pat) :
    startsWithL pat (s ++ '\n' :: t) = startsWithL pat s := by
  induction pat generalizing s with
  | nil => rfl
  | cons p ps ih =>
    have hpn : p ≠ '\n' := fun h => hp (by simp [h])
    have hp2 : '\n' ∉ ps := fun h => hp (by simp [h])
    cases s with
    | nil => simp [startsWithL, hpn]
    | cons c cs => simp [startsWithL, ih cs hp2]

theorem anyLineAux_append_nl (pat xs ys : JStr) (hp : '\n' ∉ pat) :
    anyLineAux pat (xs ++ '\n' :: ys) =
      (anyLineAux pat xs || (startsWithL pat ys || anyLineAux pat ys)) := by
  induction xs with
  | nil => simp [anyLineAux]
  | cons c cs ih =>
    simp [anyLineAux, ih, startsWithL_append_nl pat cs ys hp, Bool.or_assoc]

theorem hasClauseLine_append_nl (pat xs ys : JStr) (hp : '\n' ∉ pat) :
    hasClauseLine pat (xs ++ '\n' :: ys) =
      (hasClauseLine pat xs || hasClauseLine pat ('\n' :: ys)) := by
  have hsw : startsWithL pat ('\n' :: ys) = false ∨ pat = [] := by
    cases pat with
    | nil => exact Or.inr rfl
    | cons p ps =>
      refine Or.inl ?_
      have hpn : p ≠ '\n' := fun h => hp (by simp [h])
      simp [startsWithL, hpn]
  unfold hasClauseLine
  rw [startsWithL_append_nl pat xs ys hp, anyLineAux_append_nl pat xs ys hp]
  rcases hsw with hsw | rfl
  · simp [anyLineAux, hsw, Bool.or_assoc]
  · simp [startsWithL, anyLineAux, Bool.or_assoc]

theorem anyLineAux_of_nl_free (pat s : JStr) (hs : '\n' ∉ s) :
    anyLineAux pat s = false := by
  induction s with
  | nil => rfl
  | cons c cs ih =>
    have hc : c ≠ '\n' := fun h => hs (by simp [h])
    have : '\n' ∉ cs := fun h => hs (by simp [h])
    simp [anyLineAux, hc, Ne.symm hc, ih this]

theorem hasClauseLine_of_nl_free (pat s : JStr) (hs : '\n' ∉ s) :
    hasClauseLine pat s = startsWithL pat s := by
  simp [hasClauseLine, anyLineAux_of_nl_free pat s hs]

theorem hasClauseLine_cons_nl (p : Char) (ps t : JStr) (hpn : p ≠ '\n') :
    hasClauseLine (p :: ps) ('\n' :: t) = hasClauseLine (p :: ps) t := by
  simp [hasClauseLine, startsWithL, anyLineAux, hpn]

/-- A piece appended to the query: empty, or starting on a fresh line. -/
def NlHeaded (l : JStr) : Prop := l = [] ∨ ∃ t, l = '\n' :: t

theorem NlHeaded_append {a b : JStr} (ha : NlHeaded a) (hb : NlHeaded b) :
    NlHeaded (a ++ b) := by
  rcases ha with rfl | ⟨t, rfl⟩
  · simpa using hb
  · exact Or.inr ⟨t ++ b, by simp⟩

theorem hasClauseLine_nil (p : Char) (ps : JStr) :
    hasClauseLine (p :: ps) [] = false := rfl

theorem hasClauseLine_append_piece (p : Char) (ps xs ys : JStr)
    (hp : '\n' ∉ p :: ps) (hys : NlHeaded ys) :
    hasClauseLine (p :: ps) (xs ++ ys) =
      (hasClauseLine (p :: ps) xs || hasClauseLine (p :: ps) ys) := by
  rcases hys with rfl | ⟨t, rfl⟩
  · simp [hasClauseLine_nil]
  · exact hasClauseLine_append_nl (p :: ps) xs t hp

/-! ### Newline-freeness of rendered fragments -/

theorem nlf_append {a b : JStr} (ha : '\n' ∉ a) (hb : '\n' ∉ b) : '\n' ∉ a ++ b := by
  simp only [List.mem_append]
  exact fun h => h.elim ha hb

theorem nlf_joinSep (sep : JStr) (ls : List JStr) (hsep : '\n' ∉ sep)
    (hls : ∀ l ∈ ls, '\n' ∉ l) : '\n' ∉ joinSep sep ls := by
  induction ls with
  | nil => simp [joinSep]
  | cons x xs ih =>
    cases xs with
    | nil => simpa [joinSep] using hls x (by simp)
    | cons y ys =>
      rw [show joinSep sep (x :: y :: ys) = x ++ sep ++ joinSep sep (y :: ys) from rfl]
      exact nlf_append (nlf_append (hls x (by simp)) hsep)
        (ih fun l hl => hls l (by simp [hl]))

theorem decDigitCh_ne_nl (n : Nat) : decDigitCh n ≠ '\n' := by
  unfold decDigitCh
  split <;> decide

theorem hexDigitCh_ne_nl (n : Nat) : hexDigitCh n ≠ '\n' := by
  unfold hexDigitCh
  split <;> decide

theorem nlf_natCharsCore : ∀ (fuel n : Nat) (acc : JStr),
    '\n' ∉ acc → '\n' ∉ natCharsCore fuel n acc
  | 0, _, _, h => h
  | fuel + 1, n, acc, h => by
    unfold natCharsCore
    split
    · simp only [List.mem_cons]
      exact fun hm => hm.elim (fun he => decDigitCh_ne_nl n he.symm) h
    · exact nlf_natCharsCore fuel (n / 10) _
        (by
          simp only [List.mem_cons]
          exact fun hm => hm.elim (fun he => decDigitCh_ne_nl _ he.symm) h)

theorem nlf_intToChars (i : Int) : '\n' ∉ intToChars i := by
  cases i with
  | ofNat n => exact nlf_natCharsCore _ _ _ (by simp)
  | negSucc m =>
    simp only [intToChars, List.mem_cons]
    exact fun hm => hm.elim (fun he => by simp at he)
      (nlf_natCharsCore _ _ _ (by simp))

theorem nlf_hex4 (n : Nat) : '\n' ∉ hex4 n := by
  simp only [hex4, List.mem_cons]
  intro hm
  rcases hm with he | he | he | he | he
  · exact hexDigitCh_ne_nl _ he.symm
  · exact hexDigitCh_ne_nl _ he.symm
  · exact hexDigitCh_ne_nl _ he.symm
  · exact hexDigitCh_ne_nl _ he.symm
  · simp at he

theorem nlf_jsonEscapeChar (c : Char) : '\n' ∉ jsonEscapeChar c := by
  unfold jsonEscapeChar
  repeat' split
  all_goals try decide
  · simp only [List.mem_cons]
    intro hm
    rcases hm with he | he | he
    · simp at he
    · simp at he
    · exact nlf_hex4 _ he
  · next h1 h2 h3 h4 h5 _ _ _ =>
    simp only [List.mem_cons, List.not_mem_nil, or_false]
    exact fun he => h3 he.symm

/-- JSON string escaping never emits a raw newline. -/
theorem nlf_jsonStringify (v : JSValue) : '\n' ∉ jsonStringify v := by
  cases v with
  | str s =>
    intro hm
    simp only [jsonStringify, List.mem_cons, List.mem_append, List.mem_flatMap,
      List.mem_singleton, List.not_mem_nil, or_false] at hm
    rcases hm with (he | ⟨c, _, hin⟩) | he2
    · exact absurd he (by decide)
    · exact nlf_jsonEscapeChar c hin
    · exact absurd he2 (by decide)
  | num n => exact nlf_intToChars n
  | bool b => cases b <;> decide
  | null => decide

/-! ### Clean states: no builder-supplied string contains a newline -/

def cleanField (f : QueryField) : Bool :=
  nlFreeB f.fieldName &&
    (match f.«alias» with | some a => nlFreeB a | none => true) &&
    (match f.tableAlias with | some a => nlFreeB a | none => true)

def cleanValue : JSValue → Bool
  | .str s => nlFreeB s
  | _ => true

def cleanCond (c : WhereCondition) : Bool := nlFreeB c.field && cleanValue c.value

def cleanWhere (w : WhereClause) : Bool := w.conditions.all cleanCond

def cleanJoin (j : JoinClause) : Bool :=
  nlFreeB j.table && nlFreeB j.tableAlias &&
    j.conditions.all (fun c => nlFreeB c.leftField && nlFreeB c.rightField)

def cleanState (st : QueryBuilderState) : Bool :=
  st.selectedFields.all cleanField && st.joins.all cleanJoin &&
    (match st.whereClause with | some w => cleanWhere w | none => true) &&
    (match st.groupBy with
     | some g =>
       g.fields.all nlFreeB &&
         (match g.having with | some h => cleanWhere h | none => true)
     | none => true) &&
    (match st.orderBy with
     | some os => os.all (fun o => nlFreeB o.field)
     | none => true)

theorem nlf_opRender (op : ComparisonOperator) : '\n' ∉ op.render := by
  cases op <;> decide

theorem nlf_conjRender (c : Conjunction) : '\n' ∉ c.render := by
  cases c <;> decide

theorem nlf_jsValueText (v : JSValue) (hv : cleanValue v = true) :
    '\n' ∉ jsValueText v := by
  cases v with
  | str s => exact nlFreeB_iff.mp hv
  | num n => exact nlf_intToChars n
  | bool b => cases b <;> decide
  | null => decide

theorem nlf_renderCond (c : WhereCondition) (h : cleanCond c = true) :
    '\n' ∉ renderCond c := by
  have h1 : nlFreeB c.field = true := by
    simp [cleanCond] at h; exact h.1
  have h2 : cleanValue c.value = true := by
    simp [cleanCond] at h; exact h.2
  unfold renderCond
  refine nlf_append (nlf_append (nlf_append (nlf_append (nlFreeB_iff.mp h1)
    (by decide)) (nlf_opRender _)) (by decide)) ?_
  split
  · exact nlf_jsValueText _ h2
  · exact nlf_jsonStringify _

theorem nlf_renderCondList (w : WhereClause) (h : cleanWhere w = true) :
    '\n' ∉ renderCondList w := by
  unfold renderCondList
  refine nlf_joinSep _ _ ?_ ?_
  · exact nlf_append (nlf_append (by decide) (nlf_conjRender _)) (by decide)
  · intro l hl
    rcases List.mem_map.mp hl with ⟨c, hc, rfl⟩
    exact nlf_renderCond c (by
      simp only [cleanWhere, List.all_eq_true] at h
      exact h c hc)

theorem nlf_renderJoin (j : JoinClause) (h : cleanJoin j = true) :
    '\n' ∉ renderJoin j := by
  simp only [cleanJoin, Bool.and_eq_true, List.all_eq_true] at h
  unfold renderJoin
  have hty : '\n' ∉ j.type.render := by cases j.type <;> decide
  refine nlf_append (nlf_append (nlf_append (nlf_append (nlf_append
    (nlf_append hty (by decide)) (nlFreeB_iff.mp h.1.1)) (by decide))
    (nlFreeB_iff.mp h.1.2)) (by decide)) ?_
  refine nlf_joinSep _ _ (by decide) ?_
  intro l hl
  rcases List.mem_map.mp hl with ⟨c, hc, rfl⟩
  have hc2 := h.2 c hc
  simp only [Bool.and_eq_true] at hc2
  exact nlf_append (nlf_append (nlf_append (nlf_append
    (nlFreeB_iff.mp hc2.1) (by decide)) (nlf_opRender _)) (by decide))
    (nlFreeB_iff.mp hc2.2)

theorem cleanState_parts {st : QueryBuilderState} (h : cleanState st = true) :
    (∀ f ∈ st.selectedFields, cleanField f = true) ∧
      (∀ j ∈ st.joins, cleanJoin j = true) ∧
      (∀ w, st.whereClause = some w → cleanWhere w = true) ∧
      (∀ g, st.groupBy = some g →
        (∀ f ∈ g.fields, nlFreeB f = true) ∧
          ∀ hv, g.having = some hv → cleanWhere hv = true) ∧
      (∀ os, st.orderBy = some os → ∀ o ∈ os, nlFreeB o.field = true) := by
  simp only [cleanState, Bool.and_eq_true, List.all_eq_true] at h
  obtain ⟨⟨⟨⟨h1, h2⟩, h3⟩, h4⟩, h5⟩ := h
  refine ⟨h1, h2, ?_, ?_, ?_⟩
  · intro w hw; rw [hw] at h3; exact h3
  · intro g hg
    rw [hg] at h4
    simp only [Bool.and_eq_true, List.all_eq_true] at h4
    refine ⟨h4.1, ?_⟩
    intro hv hhv
    have := h4.2
    rw [hhv] at this
    exact this
  · intro os ho; rw [ho] at h5; simp only [List.all_eq_true] at h5; exact h5

theorem nlf_jsFieldRef (f : QueryField) (h : cleanField f = true) :
    '\n' ∉ jsFieldRef f := by
  simp only [cleanField, Bool.and_eq_true] at h
  unfold jsFieldRef
  split
  · next ta heq =>
    have hta : nlFreeB ta = true := by
      have := h.2
      rw [heq] at this
      exact this
    split
    · exact nlFreeB_iff.mp h.1.1
    · exact nlf_append (nlf_append (nlFreeB_iff.mp hta) (by decide))
        (nlFreeB_iff.mp h.1.1)
  · exact nlFreeB_iff.mp h.1.1

theorem nlf_jsFieldAlias (f : QueryField) (h : cleanField f = true) :
    '\n' ∉ jsFieldAlias f := by
  simp only [cleanField, Bool.and_eq_true] at h
  have hsynth : '\n' ∉ f.fieldName ++ chars "_" ++ jsOrElse f.tableAlias (chars "main") := by
    refine nlf_append (nlf_append (nlFreeB_iff.mp h.1.1) (by decide)) ?_
    unfold jsOrElse
    split
    · next ta heq =>
      have hta : nlFreeB ta = true := by
        have := h.2
        rw [heq] at this
        exact this
      split
      · decide
      · exact nlFreeB_iff.mp hta
    · decide
  unfold jsFieldAlias jsOrElse
  split
  · next a heq =>
    have ha : nlFreeB a = true := by
      have := h.1.2
      rw [heq] at this
      exact this
    split
    · exact hsynth
    · exact nlFreeB_iff.mp ha
  · exact hsynth

theorem nlf_renderField (aa : Bool) (f : QueryField) (h : cleanField f = true) :
    '\n' ∉ renderField aa f := by
  unfold renderField
  split
  · exact nlf_append (nlf_append (nlf_jsFieldRef f h) (by decide)) (nlf_jsFieldAlias f h)
  · exact nlf_jsFieldRef f h

/-! ### Which lines of the compiled text can start with a clause keyword -/

theorem hc_fieldBlock {p : Char} {ps : JStr} (hpnl : '\n' ∉ p :: ps)
    (hsp : ∀ t, startsWithL (p :: ps) (' ' :: t) = false)
    (rs : List JStr) (hrs : ∀ r ∈ rs, '\n' ∉ r) :
    hasClauseLine (p :: ps) (chars "  " ++ joinSep (chars ",\n  ") rs) = false := by
  induction rs with
  | nil =>
    rw [show joinSep (chars ",\n  ") ([] : List JStr) = [] from rfl, List.append_nil]
    rw [hasClauseLine_of_nl_free _ _ (by decide)]
    exact hsp _
  | cons x xs ih =>
    cases xs with
    | nil =>
      rw [show joinSep (chars ",\n  ") [x] = x from rfl]
      rw [hasClauseLine_of_nl_free _ _ (nlf_append (by decide) (hrs x (by simp)))]
      exact hsp _
    | cons y ys =>
      have hre : chars "  " ++ joinSep (chars ",\n  ") (x :: y :: ys) =
          (chars "  " ++ x ++ [',']) ++
            '\n' :: (chars "  " ++ joinSep (chars ",\n  ") (y :: ys)) := by
        rw [show joinSep (chars ",\n  ") (x :: y :: ys) =
          x ++ chars ",\n  " ++ joinSep (chars ",\n  ") (y :: ys) from rfl]
        rw [show (chars ",\n  ") = ',' :: '\n' :: chars "  " from rfl]
        simp [List.append_assoc]
      have hpn : p ≠ '\n' := fun hq => hpnl (by simp [hq])
      rw [hre, hasClauseLine_append_nl _ _ _ hpnl, hasClauseLine_cons_nl _ _ _ hpn]
      rw [ih (fun r hr => hrs r (by simp [hr]))]
      rw [hasClauseLine_of_nl_free _ _
        (nlf_append (nlf_append (by decide) (hrs x (by simp))) (by decide))]
      rw [Bool.or_false]
      exact hsp _

theorem hc_lineList {p : Char} {ps : JStr} (hpnl : '\n' ∉ p :: ps)
    (ls : List JStr)
    (h : ∀ l ∈ ls, '\n' ∉ l ∧ startsWithL (p :: ps) l = false) :
    hasClauseLine (p :: ps) (joinSep (chars "\n") ls) = false := by
  induction ls with
  | nil => rfl
  | cons x xs ih =>
    cases xs with
    | nil =>
      rw [show joinSep (chars "\n") [x] = x from rfl]
      rw [hasClauseLine_of_nl_free _ _ (h x (by simp)).1]
      exact (h x (by simp)).2
    | cons y ys =>
      have hre : joinSep (chars "\n") (x :: y :: ys) =
          x ++ '\n' :: joinSep (chars "\n") (y :: ys) := by
        rw [show joinSep (chars "\n") (x :: y :: ys) =
          x ++ chars "\n" ++ joinSep (chars "\n") (y :: ys) from rfl,
          show (chars "\n") = ['\n'] from rfl]
        simp
      have hpn : p ≠ '\n' := fun hq => hpnl (by simp [hq])
      rw [hre, hasClauseLine_append_nl _ _ _ hpnl, hasClauseLine_cons_nl _ _ _ hpn,
        ih (fun l hl => h l (by simp [hl])),
        hasClauseLine_of_nl_free _ _ (h x (by simp)).1]
      simp [(h x (by simp)).2]

theorem NlHeaded_joinsPart (st : QueryBuilderState) : NlHeaded (joinsPart st) := by
  unfold joinsPart
  split
  · exact Or.inl rfl
  · exact Or.inr ⟨_, rfl⟩

theorem NlHeaded_wherePart (st : QueryBuilderState) : NlHeaded (wherePart st) := by
  unfold wherePart
  split
  · split
    · exact Or.inl rfl
    · exact Or.inr ⟨_, rfl⟩
  · exact Or.inl rfl

theorem NlHeaded_groupPart (st : QueryBuilderState) : NlHeaded (groupPart st) := by
  unfold groupPart
  split
  · split
    · exact Or.inl rfl
    · exact Or.inr ⟨_, rfl⟩
  · exact Or.inl rfl

theorem NlHeaded_orderPart (st : QueryBuilderState) : NlHeaded (orderPart st) := by
  unfold orderPart
  split
  · split
    · exact Or.inl rfl
    · exact Or.inr ⟨_, rfl⟩
  · exact Or.inl rfl

theorem NlHeaded_limitPart (st : QueryBuilderState) : NlHeaded (limitPart st) := by
  unfold limitPart
  split
  · exact Or.inr ⟨_, rfl⟩
  · exact Or.inl rfl

theorem hc_selectPart {p : Char} {ps : JStr} (hpnl : '\n' ∉ p :: ps)
    (hS : ∀ t, startsWithL (p :: ps) ('S' :: t) = false)
    (hsp : ∀ t, startsWithL (p :: ps) (' ' :: t) = false)
    (hF : ∀ t, startsWithL (p :: ps) ('F' :: t) = false)
    (sd aa : Bool) (st : QueryBuilderState) (hcl : cleanState st = true) :
    hasClauseLine (p :: ps) (selectPart sd aa st) = false := by
  have hpn : p ≠ '\n' := fun hq => hpnl (by simp [hq])
  have hre : selectPart sd aa st =
      (chars "SELECT" ++ (if sd then chars " DISTINCT" else [])) ++
        '\n' :: ((chars "  " ++
          joinSep (chars ",\n  ") (st.selectedFields.map (renderField aa))) ++
          '\n' :: chars "FROM $\x7bTABLE\x7d") := by
    unfold selectPart
    rw [show chars "\n  " = '\n' :: chars "  " from rfl,
      show chars "\nFROM $\x7bTABLE\x7d" = '\n' :: chars "FROM $\x7bTABLE\x7d" from rfl]
    simp [List.append_assoc]
  rw [hre, hasClauseLine_append_nl _ _ _ hpnl, hasClauseLine_cons_nl _ _ _ hpn,
    hasClauseLine_append_nl _ _ _ hpnl, hasClauseLine_cons_nl _ _ _ hpn]
  have hhead : '\n' ∉ chars "SELECT" ++ (if sd then chars " DISTINCT" else []) := by
    cases sd <;> decide
  rw [hasClauseLine_of_nl_free _ _ hhead]
  rw [hc_fieldBlock hpnl hsp _ (fun r hr => by
    rcases List.mem_map.mp hr with ⟨f, hf, rfl⟩
    exact nlf_renderField aa f ((cleanState_parts hcl).1 f hf))]
  rw [hasClauseLine_of_nl_free _ _ (by decide : '\n' ∉ chars "FROM $\x7bTABLE\x7d")]
  have hhead2 : startsWithL (p :: ps)
      (chars "SELECT" ++ (if sd then chars " DISTINCT" else [])) = false := by
    cases sd
    · exact hS _
    · exact hS _
  rw [hhead2]
  exact hF _

theorem hc_joinsPart {p : Char} {ps : JStr} (hpnl : '\n' ∉ p :: ps)
    (hI : ∀ t, startsWithL (p :: ps) ('I' :: t) = false)
    (hLE : ∀ t, startsWithL (p :: ps) ('L' :: 'E' :: t) = false)
    (hR : ∀ t, startsWithL (p :: ps) ('R' :: t) = false)
    (hF : ∀ t, startsWithL (p :: ps) ('F' :: t) = false)
    (st : QueryBuilderState) (hcl : cleanState st = true) :
    hasClauseLine (p :: ps) (joinsPart st) = false := by
  have hpn : p ≠ '\n' := fun hq => hpnl (by simp [hq])
  unfold joinsPart
  split
  · rfl
  · rw [show chars "\n" ++ joinSep (chars "\n") (st.joins.map renderJoin) =
      '\n' :: joinSep (chars "\n") (st.joins.map renderJoin) from rfl]
    rw [hasClauseLine_cons_nl _ _ _ hpn]
    apply hc_lineList hpnl
    intro l hl
    rcases List.mem_map.mp hl with ⟨j, hj, rfl⟩
    refine ⟨nlf_renderJoin j ((cleanState_parts hcl).2.1 j hj), ?_⟩
    obtain ⟨jt, tb, ta, cs⟩ := j
    cases jt
    · exact hI _
    · exact hLE _
    · exact hR _
    · exact hF _

theorem hc_wherePart {p : Char} {ps : JStr} (hpnl : '\n' ∉ p :: ps)
    (hW : ∀ t, startsWithL (p :: ps) ('W' :: t) = false)
    (st : QueryBuilderState) (hcl : cleanState st = true) :
    hasClauseLine (p :: ps) (wherePart st) = false := by
  have hpn : p ≠ '\n' := fun hq => hpnl (by simp [hq])
  unfold wherePart
  split
  · next w heq =>
    split
    · rfl
    · have hw := (cleanState_parts hcl).2.2.1 w heq
      rw [show chars "\nWHERE " ++ renderCondList w =
        '\n' :: (chars "WHERE " ++ renderCondList w) from rfl]
      rw [hasClauseLine_cons_nl _ _ _ hpn]
      rw [hasClauseLine_of_nl_free _ _ (nlf_append (by decide) (nlf_renderCondList w hw))]
      exact hW _
  · rfl

theorem hc_groupPart {p : Char} {ps : JStr} (hpnl : '\n' ∉ p :: ps)
    (hG : ∀ t, startsWithL (p :: ps) ('G' :: t) = false)
    (hH : ∀ t, startsWithL (p :: ps) ('H' :: t) = false)
    (st : QueryBuilderState) (hcl : cleanState st = true) :
    hasClauseLine (p :: ps) (groupPart st) = false := by
  have hpn : p ≠ '\n' := fun hq => hpnl (by simp [hq])
  have hre : ∀ X : JStr, chars "\nGROUP BY " ++ X = '\n' :: (chars "GROUP BY " ++ X) :=
    fun _ => rfl
  unfold groupPart
  split
  · next g heq =>
    obtain ⟨hgf, hgh⟩ := (cleanState_parts hcl).2.2.2.1 g heq
    have hfj : '\n' ∉ joinSep (chars ", ") g.fields :=
      nlf_joinSep _ _ (by decide) (fun l hl => nlFreeB_iff.mp (hgf l hl))
    split
    · rfl
    · cases hhv : g.having with
      | none =>
        simp only [hhv]
        rw [List.append_nil, hre, hasClauseLine_cons_nl _ _ _ hpn]
        rw [hasClauseLine_of_nl_free _ _ (nlf_append (by decide) hfj)]
        exact hG _
      | some hv =>
        simp only [hhv]
        have hwv := hgh hv hhv
        rw [show chars "\nHAVING " ++ renderCondList hv =
          '\n' :: (chars "HAVING " ++ renderCondList hv) from rfl]
        rw [hasClauseLine_append_nl _ _ _ hpnl, hasClauseLine_cons_nl _ _ _ hpn]
        rw [hre, hasClauseLine_cons_nl _ _ _ hpn]
        rw [hasClauseLine_of_nl_free _ _ (nlf_append (by decide) hfj)]
        rw [hasClauseLine_of_nl_free _ _
          (nlf_append (by decide) (nlf_renderCondList hv hwv))]
        have e1 : startsWithL (p :: ps)
            (chars "GROUP BY " ++ joinSep (chars ", ") g.fields) = false := hG _
        have e2 : startsWithL (p :: ps)
            (chars "HAVING " ++ renderCondList hv) = false := hH _
        rw [e1, e2]
        rfl
  · rfl

theorem hc_orderPart {p : Char} {ps : JStr} (hpnl : '\n' ∉ p :: ps)
    (hOR : ∀ t, startsWithL (p :: ps) ('O' :: 'R' :: t) = false)
    (st : QueryBuilderState) (hcl : cleanState st = true) :
    hasClauseLine (p :: ps) (orderPart st) = false := by
  have hpn : p ≠ '\n' := fun hq => hpnl (by simp [hq])
  unfold orderPart
  split
  · next os heq =>
    have hos := (cleanState_parts hcl).2.2.2.2 os heq
    split
    · rfl
    · rw [show ∀ X : JStr, chars "\nORDER BY " ++ X =
        '\n' :: (chars "ORDER BY " ++ X) from fun _ => rfl]
      rw [hasClauseLine_cons_nl _ _ _ hpn]
      rw [hasClauseLine_of_nl_free _ _ (nlf_append (by decide)
        (nlf_joinSep _ _ (by decide) (fun l hl => by
          rcases List.mem_map.mp hl with ⟨o, ho, rfl⟩
          exact nlf_append (nlf_append (nlFreeB_iff.mp (hos o ho)) (by decide))
            (by cases o.direction <;> decide))))]
      exact hOR _
  · rfl

/-- Every line of the compiled text other than the LIMIT/OFFSET lines is
accounted for: containment of a clause keyword reduces to the limit part. -/
theorem hasClauseLine_compile {p : Char} {ps : JStr} (hpnl : '\n' ∉ p :: ps)
    (hS : ∀ t, startsWithL (p :: ps) ('S' :: t) = false)
    (hsp : ∀ t, startsWithL (p :: ps) (' ' :: t) = false)
    (hF : ∀ t, startsWithL (p :: ps) ('F' :: t) = false)
    (hW : ∀ t, startsWithL (p :: ps) ('W' :: t) = false)
    (hG : ∀ t, startsWithL (p :: ps) ('G' :: t) = false)
    (hH : ∀ t, startsWithL (p :: ps) ('H' :: t) = false)
    (hI : ∀ t, startsWithL (p :: ps) ('I' :: t) = false)
    (hR : ∀ t, startsWithL (p :: ps) ('R' :: t) = false)
    (hLE : ∀ t, startsWithL (p :: ps) ('L' :: 'E' :: t) = false)
    (hOR : ∀ t, startsWithL (p :: ps) ('O' :: 'R' :: t) = false)
    (sd aa : Bool) (st : QueryBuilderState)
    (hne : st.selectedFields.isEmpty = false) (hcl : cleanState st = true) :
    hasClauseLine (p :: ps) (updateQueryFromState sd aa st) =
      hasClauseLine (p :: ps) (limitPart st) := by
  unfold updateQueryFromState
  rw [if_neg (by simp [hne])]
  rw [hasClauseLine_append_piece _ _ _ _ hpnl (NlHeaded_limitPart st),
    hasClauseLine_append_piece _ _ _ _ hpnl (NlHeaded_orderPart st),
    hasClauseLine_append_piece _ _ _ _ hpnl (NlHeaded_groupPart st),
    hasClauseLine_append_piece _ _ _ _ hpnl (NlHeaded_wherePart st),
    hasClauseLine_append_piece _ _ _ _ hpnl (NlHeaded_joinsPart st)]
  rw [hc_selectPart hpnl hS hsp hF sd aa st hcl,
    hc_joinsPart hpnl hI hLE hR hF st hcl,
    hc_wherePart hpnl hW st hcl,
    hc_groupPart hpnl hG hH st hcl,
    hc_orderPart hpnl hOR st hcl]
  simp

/-! ### Order lemmas for the sort comparators -/

theorem lexLe_total (a b : JStr) : lexLe a b = true ∨ lexLe b a = true := by
  induction a generalizing b with
  | nil => exact Or.inl rfl
  | cons x xs ih =>
    cases b with
    | nil => exact Or.inr rfl
    | cons y ys =>
      rcases lt_trichotomy x y with h | h | h
      · left; simp [lexLe, h]
      · subst h
        rcases ih ys with h2 | h2
        · left; simp [lexLe, lt_irrefl, h2]
        · right; simp [lexLe, lt_irrefl, h2]
      · right; simp [lexLe, h]

theorem lexLe_trans (a b c : JStr) (h1 : lexLe a b = true) (h2 : lexLe b c = true) :
    lexLe a c = true := by
  induction a generalizing b c with
  | nil => rfl
  | cons x xs ih =>
    cases b with
    | nil => simp [lexLe] at h1
    | cons y ys =>
      cases c with
      | nil => simp [lexLe] at h2
      | cons z zs =>
        simp only [lexLe] at h1 h2 ⊢
        rcases lt_trichotomy x y with hxy | hxy | hxy
        · rw [if_pos hxy] at h1
          rcases lt_trichotomy y z with hyz | hyz | hyz
          · rw [if_pos (lt_trans hxy hyz)]
          · subst hyz; rw [if_pos hxy]
          · rw [if_neg (asymm hyz), if_pos hyz] at h2; exact absurd h2 (by simp)
        · subst hxy
          rcases lt_trichotomy x z with hyz | hyz | hyz
          · rw [if_pos hyz]
          · subst hyz
            rw [if_neg (lt_irrefl x), if_neg (lt_irrefl x)] at h1 h2 ⊢
            exact ih ys zs h1 h2
          · rw [if_neg (asymm hyz), if_pos hyz] at h2; exact absurd h2 (by simp)
        · rw [if_neg (asymm hxy), if_pos hxy] at h1; exact absurd h1 (by simp)

theorem catLe_iff (a b : JStr) :
    catLe a b = true ↔ (b = chars "Other" ∨ (¬ a = chars "Other" ∧ lexLe a b = true)) := by
  unfold catLe
  simp [Bool.or_eq_true, Bool.and_eq_true, decide_eq_true_eq]

theorem catLe_total (a b : JStr) : catLe a b = true ∨ catLe b a = true := by
  rw [catLe_iff, catLe_iff]
  by_cases hb : b = chars "Other"
  · exact Or.inl (Or.inl hb)
  · by_cases ha : a = chars "Other"
    · exact Or.inr (Or.inl ha)
    · rcases lexLe_total a b with h | h
      · exact Or.inl (Or.inr ⟨ha, h⟩)
      · exact Or.inr (Or.inr ⟨hb, h⟩)

theorem catLe_trans (a b c : JStr) (h1 : catLe a b = true) (h2 : catLe b c = true) :
    catLe a c = true := by
  rw [catLe_iff] at h1 h2 ⊢
  rcases h2 with hc | ⟨hbO, hbc⟩
  · exact Or.inl hc
  · rcases h1 with hbO2 | ⟨haO, hab⟩
    · exact absurd hbO2 hbO
    · exact Or.inr ⟨haO, lexLe_trans a b c hab hbc⟩

instance : IsTotal (JStr × List JStr) catRel :=
  ⟨fun a b => catLe_total a.1 b.1⟩

instance : IsTrans (JStr × List JStr) catRel :=
  ⟨fun _ _ _ h1 h2 => catLe_trans _ _ _ h1 h2⟩

instance : IsTotal JStr strRel := ⟨fun a b => lexLe_total a b⟩

instance : IsTrans JStr strRel := ⟨fun _ _ _ h1 h2 => lexLe_trans _ _ _ h1 h2⟩

/-! ### Membership through the grouping pipelines -/

theorem mem_jsObjectEntries {β : Type} {l : List (JStr × β)} {x : JStr × β} :
    x ∈ jsObjectEntries l ↔ x ∈ l := by
  unfold jsObjectEntries
  rw [List.mem_append, (List.perm_insertionSort entKeyLe _).mem_iff]
  simp only [List.mem_filter]
  by_cases h : isArrayIndexKey x.1 <;> simp [h]

theorem mem_pushAssoc_val {k v : JStr} {l : List (JStr × List JStr)} {s : JStr} :
    (∃ p ∈ pushAssoc k v l, s ∈ p.2) ↔ s = v ∨ ∃ p ∈ l, s ∈ p.2 := by
  induction l with
  | nil => simp [pushAssoc, eq_comm]
  | cons hd tl ih =>
    obtain ⟨k0, vs⟩ := hd
    by_cases hk : k0 = k
    · simp only [pushAssoc, if_pos hk, List.mem_cons]
      constructor
      · rintro ⟨p, hp | hp, hs⟩
        · subst hp
          simp only [List.mem_append, List.mem_singleton] at hs
          rcases hs with hs | hs
          · exact Or.inr ⟨(k0, vs), by simp, hs⟩
          · exact Or.inl hs
        · exact Or.inr ⟨p, by simp [hp], hs⟩
      · rintro (rfl | ⟨p, hp, hs⟩)
        · exact ⟨(k0, vs ++ [s]), by simp, by simp⟩
        · rcases hp with rfl | hp
          · exact ⟨(k0, vs ++ [v]), by simp, by simp [hs]⟩
          · exact ⟨p, by simp [hp], hs⟩
    · simp only [pushAssoc, if_neg hk, List.mem_cons]
      constructor
      · rintro ⟨p, hp | hp, hs⟩
        · subst hp
          exact Or.inr ⟨(k0, vs), by simp, hs⟩
        · rcases ih.mp ⟨p, hp, hs⟩ with h | ⟨q, hq, hqs⟩
          · exact Or.inl h
          · exact Or.inr ⟨q, by simp [hq], hqs⟩
      · rintro (rfl | ⟨p, hp, hs⟩)
        · rcases ih.mpr (Or.inl rfl) with ⟨q, hq, hqs⟩
          exact ⟨q, by simp [hq], hqs⟩
        · rcases hp with rfl | hp
          · exact ⟨(k0, vs), by simp, hs⟩
          · rcases ih.mpr (Or.inr ⟨p, hp, hs⟩) with ⟨q, hq, hqs⟩
            exact ⟨q, by simp [hq], hqs⟩

theorem mem_pushAssoc_self (k v : JStr) (l : List (JStr × List JStr)) :
    ∃ p ∈ pushAssoc k v l, p.1 = k ∧ v ∈ p.2 := by
  induction l with
  | nil => exact ⟨(k, [v]), by simp [pushAssoc], rfl, by simp⟩
  | cons hd tl ih =>
    obtain ⟨k0, vs⟩ := hd
    by_cases hk : k0 = k
    · exact ⟨(k0, vs ++ [v]), by simp [pushAssoc, hk], hk, by simp⟩
    · rcases ih with ⟨p, hp, hpk, hpv⟩
      exact ⟨p, by simp [pushAssoc, hk, hp], hpk, hpv⟩

theorem mem_pushAssoc_mono {k0 s : JStr} (k v : JStr) (l : List (JStr × List JStr))
    (h : ∃ p ∈ l, p.1 = k0 ∧ s ∈ p.2) :
    ∃ p ∈ pushAssoc k v l, p.1 = k0 ∧ s ∈ p.2 := by
  induction l with
  | nil => simp at h
  | cons hd tl ih =>
    obtain ⟨k1, vs⟩ := hd
    rcases h with ⟨p, hp, hpk, hps⟩
    simp only [List.mem_cons] at hp
    by_cases hk : k1 = k
    · rcases hp with rfl | hp
      · exact ⟨(k1, vs ++ [v]), by simp [pushAssoc, hk], hpk, by simp [hps]⟩
      · exact ⟨p, by simp [pushAssoc, hk, hp], hpk, hps⟩
    · rcases hp with rfl | hp
      · exact ⟨(k1, vs), by simp [pushAssoc, hk], hpk, hps⟩
      · rcases ih ⟨p, hp, hpk, hps⟩ with ⟨q, hq, hqk, hqs⟩
        exact ⟨q, by simp [pushAssoc, hk, hq], hqk, hqs⟩

theorem pushAssoc_keys_sound {k v : JStr} {l : List (JStr × List JStr)}
    (hl : ∀ p ∈ l, ∀ s ∈ p.2, classifyDataset s = p.1) (hv : classifyDataset v = k) :
    ∀ p ∈ pushAssoc k v l, ∀ s ∈ p.2, classifyDataset s = p.1 := by
  induction l with
  | nil =>
    intro p hp s hs
    simp only [pushAssoc, List.mem_singleton] at hp
    subst hp
    simp only [List.mem_singleton] at hs
    subst hs
    exact hv
  | cons hd tl ih =>
    obtain ⟨k0, vs⟩ := hd
    intro p hp s hs
    by_cases hk : k0 = k
    · simp only [pushAssoc, if_pos hk, List.mem_cons] at hp
      rcases hp with rfl | hp
      · simp only [List.mem_append, List.mem_singleton] at hs
        rcases hs with hs | rfl
        · exact hl (k0, vs) (by simp) s hs
        · rw [hv, hk]
      · exact hl p (by simp [hp]) s hs
    · simp only [pushAssoc, if_neg hk, List.mem_cons] at hp
      rcases hp with rfl | hp
      · exact hl (k0, vs) (by simp) s hs
      · exact ih (fun q hq => hl q (by simp [hq])) p hp s hs

theorem buildD_sound (ds : List JStr) :
    ∀ p ∈ buildDatasetGroups ds, ∀ d ∈ p.2, classifyDataset d = p.1 := by
  unfold buildDatasetGroups
  suffices h : ∀ acc : List (JStr × List JStr),
      (∀ p ∈ acc, ∀ s ∈ p.2, classifyDataset s = p.1) →
      ∀ p ∈ ds.foldl (fun acc d => pushAssoc (classifyDataset d) d acc) acc,
        ∀ s ∈ p.2, classifyDataset s = p.1 by
    exact h [] (by simp)
  induction ds with
  | nil => intro acc hacc; simpa using hacc
  | cons d ds ih =>
    intro acc hacc
    simp only [List.foldl_cons]
    exact ih _ (pushAssoc_keys_sound hacc rfl)

theorem buildD_vals (ds : List JStr) :
    ∀ p ∈ buildDatasetGroups ds, ∀ d ∈ p.2, d ∈ ds := by
  unfold buildDatasetGroups
  suffices h : ∀ (acc : List (JStr × List JStr)) (s : JStr),
      (∃ p ∈ ds.foldl (fun acc d => pushAssoc (classifyDataset d) d acc) acc, s ∈ p.2) →
      (∃ p ∈ acc, s ∈ p.2) ∨ s ∈ ds by
    intro p hp d hd
    rcases h [] d ⟨p, hp, hd⟩ with ⟨q, hq, _⟩ | h2
    · simp at hq
    · exact h2
  induction ds with
  | nil =>
    intro acc s hs
    simp only [List.foldl_nil] at hs
    exact Or.inl hs
  | cons d ds ih =>
    intro acc s hs
    simp only [List.foldl_cons] at hs
    rcases ih _ s hs with h2 | h2
    · rcases mem_pushAssoc_val.mp h2 with rfl | h3
      · exact Or.inr (by simp)
      · exact Or.inl h3
    · exact Or.inr (by simp [h2])

theorem foldl_push_mono (ds : List JStr) :
    ∀ (acc : List (JStr × List JStr)) {k0 s : JStr},
      (∃ p ∈ acc, p.1 = k0 ∧ s ∈ p.2) →
      ∃ p ∈ ds.foldl (fun acc d => pushAssoc (classifyDataset d) d acc) acc,
        p.1 = k0 ∧ s ∈ p.2 := by
  induction ds with
  | nil => intro acc _ _ h; simpa using h
  | cons d ds ih =>
    intro acc k0 s h
    simp only [List.foldl_cons]
    exact ih _ (mem_pushAssoc_mono _ _ _ h)

theorem buildD_complete (ds : List JStr) :
    ∀ d ∈ ds, ∃ p ∈ buildDatasetGroups ds, p.1 = classifyDataset d ∧ d ∈ p.2 := by
  unfold buildDatasetGroups
  suffices h : ∀ (acc : List (JStr × List JStr)) (d : JStr), d ∈ ds →
      ∃ p ∈ ds.foldl (fun acc d => pushAssoc (classifyDataset d) d acc) acc,
        p.1 = classifyDataset d ∧ d ∈ p.2 from fun d hd => h [] d hd
  induction ds with
  | nil => intro _ d hd; simp at hd
  | cons d0 ds ih =>
    intro acc d hd
    simp only [List.foldl_cons]
    rcases List.mem_cons.mp hd with rfl | hd
    · exact foldl_push_mono ds _ (mem_pushAssoc_self _ _ _)
    · exact ih _ d hd

/-! ## Claim theorems -/

/-- C1 (amended): `parseTableName` populates the date fields iff the name
splits on underscore into at least three segments and each of the first
three passes the JavaScript numeric-coercion test `!isNaN(Number(seg))`
(not the strict non-negative-integer test of the original claim); in that
case year, month and day are segments 0-2 verbatim and `type` is the
remaining segments rejoined with underscore, and otherwise the result
carries only the name. -/
theorem parseTableName_spec (t : JStr) :
    ((3 ≤ (splitCh '_' t).length ∧
        ∀ s ∈ (splitCh '_' t).take 3, jsNumberNotNaN s = true) →
      parseTableName t =
        { name := t, year := (splitCh '_' t)[0]?, month := (splitCh '_' t)[1]?,
          day := (splitCh '_' t)[2]?,
          type := some (joinSep (chars "_") ((splitCh '_' t).drop 3)) })
    ∧ (¬ (3 ≤ (splitCh '_' t).length ∧
        ∀ s ∈ (splitCh '_' t).take 3, jsNumberNotNaN s = true) →
      parseTableName t = { name := t }) := by
  rcases h : splitCh '_' t with _ | ⟨y, _ | ⟨m, _ | ⟨d, rest⟩⟩⟩
  · exact ⟨fun hp => by simp at hp, fun _ => by simp [parseTableName, h]⟩
  · exact ⟨fun hp => by simp at hp, fun _ => by simp [parseTableName, h]⟩
  · exact ⟨fun hp => by simp at hp, fun _ => by simp [parseTableName, h]⟩
  · by_cases hc : (jsNumberNotNaN y && jsNumberNotNaN m && jsNumberNotNaN d) = true
    · refine ⟨fun _ => ?_, fun hn => absurd ?_ hn⟩
      · simp [parseTableName, h, hc]
      · have h3 := hc
        simp only [Bool.and_eq_true] at h3
        refine ⟨by simp, ?_⟩
        intro s hs
        have : s = y ∨ s = m ∨ s = d := by
          simpa using hs
        rcases this with rfl | rfl | rfl
        · exact h3.1.1
        · exact h3.1.2
        · exact h3.2
    · refine ⟨fun hp => ?_, fun _ => ?_⟩
      · exfalso
        apply hc
        have hy := hp.2 y (by simp)
        have hm := hp.2 m (by simp)
        have hd := hp.2 d (by simp)
        simp [hy, hm, hd]
      · simp [parseTableName, h, hc]

/-- C1 witness: the theorem at the specification example. -/
theorem parseTableName_spec_witness :
    parseTableName (chars "2024_03_15_sales") =
      { name := chars "2024_03_15_sales", year := some (chars "2024"),
        month := some (chars "03"), day := some (chars "15"),
        type := some (chars "sales") } :=
  ((parseTableName_spec (chars "2024_03_15_sales")).1 (by decide)).trans (by decide)

/-- C1 counterexample: the first segment of `-1_2_3` fails the strict
non-negative-integer test, yet the date fields are populated, because the
source tests `!isNaN(Number(seg))` and `Number("-1")` is not `NaN`.  So the
claimed equivalence with a strict non-negative-integer test is false. -/
theorem parseTableName_strict_cex :
    (parseTableName (chars "-1_2_3")).year = some (chars "-1") ∧
      strictNonNegIntTest (chars "-1") = false := by decide

/-- C7: whenever `selectedFields` is empty the compiled query is the empty
string, regardless of every other field of the state. -/
theorem compile_empty_selection (stateDistinct autoAlias : Bool)
    (st : QueryBuilderState) (h : st.selectedFields = []) :
    updateQueryFromState stateDistinct autoAlias st = [] := by
  simp [updateQueryFromState, h]

/-- C7 witness: a state with every optional clause populated but no selected
fields still compiles to the empty string. -/
theorem compile_empty_selection_witness :
    updateQueryFromState true true
      { selectedFields := [],
        joins := [{ type := .INNER, table := chars "t", tableAlias := chars "a",
                    conditions := [] }],
        whereClause := some { conditions := [], conjunction := .OR },
        groupBy := some { fields := [chars "x"] },
        orderBy := some [{ field := chars "x", direction := .DESC }],
        limit := some 7, offset := some 9, distinct := true } = [] :=
  compile_empty_selection true true _ rfl

/-- C3 (code bug): `updateQueryFromState` reads the `DISTINCT` flag from the
stale `state.distinct` captured by the `useCallback` closure instead of from
the `newState` argument it compiles.  When the Distinct switch is toggled
on, the handler calls the callback (captured with `state.distinct = false`)
on a `newState` whose `distinct` is `true`: the compiled text contains no
`DISTINCT` even though the distinct flag of the compiled state is `true`,
and conversely a stale `true` emits `DISTINCT` for a state whose flag is
`false`. -/
theorem distinct_stale_closure_bug :
    (QueryBuilderState.distinct
        { selectedFields := [{ fieldName := chars "id" }], joins := [],
          distinct := true } = true)
    ∧ updateQueryFromState false true
        { selectedFields := [{ fieldName := chars "id" }], joins := [],
          distinct := true } =
      chars "SELECT\n  id AS id_main\nFROM $\x7bTABLE\x7d"
    ∧ jsIncludes
        (updateQueryFromState false true
          { selectedFields := [{ fieldName := chars "id" }], joins := [],
            distinct := true })
        (chars "DISTINCT") = false
    ∧ updateQueryFromState true true
        { selectedFields := [{ fieldName := chars "id" }], joins := [],
          distinct := false } =
      chars "SELECT DISTINCT\n  id AS id_main\nFROM $\x7bTABLE\x7d" := by decide

/-- C4: the decision table of `insertFieldIntoQuery`: an empty query or a
query without a case-insensitive `select` yields a fresh
`SELECT prefix.field`; a query containing `select` gets `,\n  prefix.field`
appended unless its trimmed text ends with `select`, in which case
` prefix.field` is appended; the prefix is the backtick-quoted
`dataset.table` when both are truthy and empty otherwise. -/
theorem insertField_decision_table (ds tbl : Option JStr) (q f : JStr) :
    (dsTablePfx ds tbl =
      if jsTruthyStr ds && jsTruthyStr tbl then
        chars "`" ++ ds.getD [] ++ chars "." ++ tbl.getD [] ++ chars "`"
      else [])
    ∧ (q = [] →
      insertFieldIntoQuery ds tbl q f =
        chars "SELECT " ++ dsTablePfx ds tbl ++ chars "." ++ f)
    ∧ (jsIncludes (jsToLower q) (chars "select") = false →
      insertFieldIntoQuery ds tbl q f =
        chars "SELECT " ++ dsTablePfx ds tbl ++ chars "." ++ f)
    ∧ (jsIncludes (jsToLower q) (chars "select") = true →
      jsEndsWith (jsTrim (jsToLower q)) (chars "select") = false →
      insertFieldIntoQuery ds tbl q f =
        q ++ chars ",\n  " ++ dsTablePfx ds tbl ++ chars "." ++ f)
    ∧ (jsIncludes (jsToLower q) (chars "select") = true →
      jsEndsWith (jsTrim (jsToLower q)) (chars "select") = true →
      insertFieldIntoQuery ds tbl q f =
        q ++ chars " " ++ dsTablePfx ds tbl ++ chars "." ++ f)
    ∧ insertFieldIntoQuery (some (chars "d")) (some (chars "t")) [] (chars "id") =
        chars "SELECT `d.t`.id" := by
  refine ⟨rfl, ?_, ?_, ?_, ?_, by decide⟩
  · intro hq; subst hq; simp [insertFieldIntoQuery]
  · intro hinc
    rcases q with _ | ⟨c, cs⟩
    · simp [insertFieldIntoQuery]
    · simp [insertFieldIntoQuery, hinc]
  · intro hinc hends
    rcases q with _ | ⟨c, cs⟩
    · exact absurd hinc (by decide)
    · simp [insertFieldIntoQuery, hinc, hends]
  · intro hinc hends
    rcases q with _ | ⟨c, cs⟩
    · exact absurd hinc (by decide)
    · simp [insertFieldIntoQuery, hinc, hends]

/-- C4 witness: the theorem at the example input from the specification. -/
theorem insertField_decision_table_witness :
    insertFieldIntoQuery (some (chars "d")) (some (chars "t"))
      (chars "SELECT `d.t`.id") (chars "name") =
      chars "SELECT `d.t`.id,\n  `d.t`.name" :=
  (((insertField_decision_table (some (chars "d")) (some (chars "t"))
        (chars "SELECT `d.t`.id") (chars "name")).2.2.2.1
      (by decide) (by decide)).trans (by decide))

/-- C6 (amended): for every state with a non-empty selection whose strings
are newline-free, the compiled text has a line starting with `LIMIT` iff
`limit` is set to a truthy (nonzero) value, and a line starting with
`OFFSET` iff both `limit` and `offset` are set to truthy values; in
particular an `offset` with an unset (or zero) `limit` emits no OFFSET
clause. -/
theorem limit_offset_emission (sd aa : Bool) (st : QueryBuilderState)
    (hne : st.selectedFields ≠ []) (hcl : cleanState st = true) :
    hasClauseLine (chars "LIMIT") (updateQueryFromState sd aa st) = jsTruthyInt st.limit
    ∧ hasClauseLine (chars "OFFSET") (updateQueryFromState sd aa st) =
        (jsTruthyInt st.limit && jsTruthyInt st.offset) := by
  have hne' : st.selectedFields.isEmpty = false := by
    simpa [List.isEmpty_iff] using hne
  have hreL : ∀ X : JStr, chars "\nLIMIT " ++ X = '\n' :: (chars "LIMIT " ++ X) :=
    fun _ => rfl
  have hreO : ∀ X : JStr, chars "\nOFFSET " ++ X = '\n' :: (chars "OFFSET " ++ X) :=
    fun _ => rfl
  constructor
  · rw [show (chars "LIMIT") = 'L' :: chars "IMIT" from rfl]
    rw [@hasClauseLine_compile 'L' (chars "IMIT") (by decide) (fun a => rfl)
      (fun b => rfl) (fun c => rfl) (fun d => rfl) (fun e => rfl) (fun f => rfl)
      (fun g => rfl) (fun i => rfl) (fun j => rfl) (fun k => rfl) sd aa st hne' hcl]
    unfold limitPart
    by_cases hl : jsTruthyInt st.limit = true
    · rw [if_pos hl, hl]
      by_cases ho : jsTruthyInt st.offset = true
      · rw [if_pos ho, hreO, hasClauseLine_append_nl _ _ _ (by decide),
          hreL, hasClauseLine_cons_nl _ _ _ (by decide),
          hasClauseLine_cons_nl _ _ _ (by decide),
          hasClauseLine_of_nl_free _ _ (nlf_append (by decide) (nlf_intToChars _)),
          hasClauseLine_of_nl_free _ _ (nlf_append (by decide) (nlf_intToChars _))]
        have e1 : startsWithL ('L' :: chars "IMIT")
            (chars "LIMIT " ++ intToChars (st.limit.getD 0)) = true := rfl
        rw [e1]
        rfl
      · simp only [Bool.not_eq_true] at ho
        rw [ho, if_neg (by simp), List.append_nil, hreL,
          hasClauseLine_cons_nl _ _ _ (by decide),
          hasClauseLine_of_nl_free _ _ (nlf_append (by decide) (nlf_intToChars _))]
        rfl
    · simp only [Bool.not_eq_true] at hl
      rw [hl, if_neg (by simp)]
      rfl
  · rw [show (chars "OFFSET") = 'O' :: chars "FFSET" from rfl]
    rw [@hasClauseLine_compile 'O' (chars "FFSET") (by decide) (fun a => rfl)
      (fun b => rfl) (fun c => rfl) (fun d => rfl) (fun e => rfl) (fun f => rfl)
      (fun g => rfl) (fun i => rfl) (fun j => rfl) (fun k => rfl) sd aa st hne' hcl]
    unfold limitPart
    by_cases hl : jsTruthyInt st.limit = true
    · rw [if_pos hl, hl]
      by_cases ho : jsTruthyInt st.offset = true
      · rw [if_pos ho, hreO, hasClauseLine_append_nl _ _ _ (by decide),
          hreL, hasClauseLine_cons_nl _ _ _ (by decide),
          hasClauseLine_cons_nl _ _ _ (by decide),
          hasClauseLine_of_nl_free _ _ (nlf_append (by decide) (nlf_intToChars _)),
          hasClauseLine_of_nl_free _ _ (nlf_append (by decide) (nlf_intToChars _))]
        have e1 : startsWithL ('O' :: chars "FFSET")
            (chars "LIMIT " ++ intToChars (st.limit.getD 0)) = false := rfl
        have e2 : startsWithL ('O' :: chars "FFSET")
            (chars "OFFSET " ++ intToChars (st.offset.getD 0)) = true := rfl
        rw [e1, e2, ho]
        rfl
      · simp only [Bool.not_eq_true] at ho
        rw [ho, if_neg (by simp), List.append_nil, hreL,
          hasClauseLine_cons_nl _ _ _ (by decide),
          hasClauseLine_of_nl_free _ _ (nlf_append (by decide) (nlf_intToChars _))]
        rfl
    · simp only [Bool.not_eq_true] at hl
      rw [hl, if_neg (by simp)]
      rfl

/-- C6 witness: the theorem at a clean state with `limit = 10` and
`offset = 5`: both clauses are emitted. -/
theorem limit_offset_emission_witness :
    hasClauseLine (chars "LIMIT")
        (updateQueryFromState false false
          { selectedFields := [{ fieldName := chars "id" }], joins := [],
            limit := some 10, offset := some 5 }) = true
    ∧ hasClauseLine (chars "OFFSET")
        (updateQueryFromState false false
          { selectedFields := [{ fieldName := chars "id" }], joins := [],
            limit := some 10, offset := some 5 }) = true := by
  have h := limit_offset_emission false false
    { selectedFields := [{ fieldName := chars "id" }], joins := [],
      limit := some 10, offset := some 5 } (by decide) (by decide)
  exact ⟨h.1.trans (by decide), h.2.trans (by decide)⟩

/-- C10: `SELECT` detection is raw case-insensitive substring matching, not
keyword matching: any non-empty query whose lower-cased text contains the
letters `select` (even only inside a longer word such as `selection`) takes
the append branches, getting `,\n  prefix.field` when the trimmed lower-cased
text does not end in those letters and ` prefix.field` when it does (for
example after `myselect`). -/
theorem insertField_substring_matching (ds tbl : Option JStr) (q f : JStr)
    (hne : q ≠ []) (hinc : jsIncludes (jsToLower q) (chars "select") = true) :
    (jsEndsWith (jsTrim (jsToLower q)) (chars "select") = false →
      insertFieldIntoQuery ds tbl q f =
        q ++ chars ",\n  " ++ dsTablePfx ds tbl ++ chars "." ++ f)
    ∧ (jsEndsWith (jsTrim (jsToLower q)) (chars "select") = true →
      insertFieldIntoQuery ds tbl q f =
        q ++ chars " " ++ dsTablePfx ds tbl ++ chars "." ++ f) := by
  rcases q with _ | ⟨c, cs⟩
  · exact absurd rfl hne
  · exact ⟨fun hends => by simp [insertFieldIntoQuery, hinc, hends],
      fun hends => by simp [insertFieldIntoQuery, hinc, hends]⟩

/-- C5: each dataset lands in the group of the category assigned by
`classifyDataset` (first matching prefix in declaration order, else the
capitalized first underscore segment, else the literal `Other`); the groups
are sorted alphabetically with the `Other` category last, dataset names are
sorted alphabetically within each group, and the specification example
evaluates as claimed. -/
theorem groupDatasets_spec (ds : List JStr) :
    (∀ g ∈ groupDatasets ds, ∀ d ∈ g.datasets, g.category = classifyDataset d ∧ d ∈ ds)
    ∧ (∀ d ∈ ds, ∃ g ∈ groupDatasets ds, g.category = classifyDataset d ∧ d ∈ g.datasets)
    ∧ List.Pairwise (fun g h => catLe g.category h.category = true) (groupDatasets ds)
    ∧ (∀ g ∈ groupDatasets ds, List.Pairwise (fun a b => lexLe a b = true) g.datasets)
    ∧ groupDatasets [chars "mtg_cards", chars "other_thing", chars "ck_prices"] =
        [{ category := chars "Card Kingdom", datasets := [chars "ck_prices"] },
         { category := chars "Magic the Gathering", datasets := [chars "mtg_cards"] },
         { category := chars "Other", datasets := [chars "other_thing"] }] := by
  refine ⟨?_, ?_, ?_, ?_, by decide⟩
  · intro g hg d hd
    unfold groupDatasets at hg
    rcases List.mem_map.mp hg with ⟨p, hp, rfl⟩
    have hp2 : p ∈ buildDatasetGroups ds :=
      mem_jsObjectEntries.mp ((List.perm_insertionSort catRel _).mem_iff.mp hp)
    have hd2 : d ∈ p.2 := (List.perm_insertionSort strRel _).mem_iff.mp hd
    exact ⟨(buildD_sound ds p hp2 d hd2).symm, buildD_vals ds p hp2 d hd2⟩
  · intro d hd
    rcases buildD_complete ds d hd with ⟨p, hp, hk, hdp⟩
    refine ⟨{ category := p.1, datasets := List.insertionSort strRel p.2 }, ?_, hk, ?_⟩
    · unfold groupDatasets
      exact List.mem_map.mpr
        ⟨p, (List.perm_insertionSort catRel _).mem_iff.mpr (mem_jsObjectEntries.mpr hp), rfl⟩
    · exact (List.perm_insertionSort strRel _).mem_iff.mpr hdp
  · unfold groupDatasets
    exact List.Pairwise.map _ (fun a b hab => hab) (List.sorted_insertionSort catRel _)
  · intro g hg
    unfold groupDatasets at hg
    rcases List.mem_map.mp hg with ⟨p, hp, rfl⟩
    exact List.sorted_insertionSort strRel _

/-- C5 witness: the membership direction of the theorem at a singleton
input. -/
theorem groupDatasets_spec_witness :
    DatasetGroup.category
        { category := chars "Magic the Gathering", datasets := [chars "mtg_cards"] } =
      classifyDataset (chars "mtg_cards")
    ∧ chars "mtg_cards" ∈ ([chars "mtg_cards"] : List JStr) :=
  (groupDatasets_spec [chars "mtg_cards"]).1
    { category := chars "Magic the Gathering", datasets := [chars "mtg_cards"] }
    (by decide) (chars "mtg_cards") (by decide)

theorem mem_pushNested_val {y m t : JStr} {l : List (JStr × List (JStr × List JStr))}
    {s : JStr} :
    (∃ p ∈ pushNested y m t l, ∃ q ∈ p.2, s ∈ q.2) ↔
      s = t ∨ ∃ p ∈ l, ∃ q ∈ p.2, s ∈ q.2 := by
  induction l with
  | nil =>
    simp only [pushNested, List.mem_singleton, List.not_mem_nil, false_and,
      exists_false, or_false]
    constructor
    · rintro ⟨p, rfl, q, hq, hs⟩
      simp only [List.mem_singleton] at hq
      subst hq
      simp only [List.mem_singleton] at hs
      exact hs
    · rintro rfl
      exact ⟨(y, [(m, [s])]), rfl, (m, [s]), by simp, by simp⟩
  | cons hd tl ih =>
    obtain ⟨k, ms⟩ := hd
    by_cases hk : k = y
    · simp only [pushNested, if_pos hk, List.mem_cons]
      constructor
      · rintro ⟨p, rfl | hp, hq⟩
        · rcases mem_pushAssoc_val.mp hq with rfl | ⟨q, hq2, hs⟩
          · exact Or.inl rfl
          · exact Or.inr ⟨(k, ms), Or.inl rfl, q, hq2, hs⟩
        · exact Or.inr ⟨p, Or.inr hp, hq⟩
      · rintro (rfl | ⟨p, rfl | hp, hq⟩)
        · exact ⟨(k, pushAssoc m s ms), Or.inl rfl, mem_pushAssoc_val.mpr (Or.inl rfl)⟩
        · exact ⟨(k, pushAssoc m t ms), Or.inl rfl, mem_pushAssoc_val.mpr (Or.inr hq)⟩
        · exact ⟨p, Or.inr hp, hq⟩
    · simp only [pushNested, if_neg hk, List.mem_cons]
      constructor
      · rintro ⟨p, rfl | hp, hq⟩
        · exact Or.inr ⟨(k, ms), Or.inl rfl, hq⟩
        · rcases ih.mp ⟨p, hp, hq⟩ with h | ⟨q, hq2, hr⟩
          · exact Or.inl h
          · exact Or.inr ⟨q, Or.inr hq2, hr⟩
      · rintro (rfl | ⟨p, rfl | hp, hq⟩)
        · rcases ih.mpr (Or.inl rfl) with ⟨q, hq2, hr⟩
          exact ⟨q, Or.inr hq2, hr⟩
        · exact ⟨(k, ms), Or.inl rfl, hq⟩
        · rcases ih.mpr (Or.inr ⟨p, hp, hq⟩) with ⟨q, hq2, hr⟩
          exact ⟨q, Or.inr hq2, hr⟩

theorem buildT_mem (ts : List JStr) (s : JStr) :
    (∃ p ∈ buildTableGroups ts, ∃ q ∈ p.2, s ∈ q.2) ↔
      (s ∈ ts ∧ 3 ≤ (splitCh '_' s).length) := by
  unfold buildTableGroups
  suffices h : ∀ acc : List (JStr × List (JStr × List JStr)),
      (∃ p ∈ ts.foldl
          (fun acc t =>
            match splitCh '_' t with
            | y :: m :: _ :: _ => pushNested y m t acc
            | _ => acc)
          acc, ∃ q ∈ p.2, s ∈ q.2) ↔
        ((∃ p ∈ acc, ∃ q ∈ p.2, s ∈ q.2) ∨ (s ∈ ts ∧ 3 ≤ (splitCh '_' s).length)) by
    rw [h []]
    simp
  induction ts with
  | nil => intro acc; simp
  | cons t ts ih =>
    intro acc
    simp only [List.foldl_cons]
    rw [ih _]
    rcases hsp : splitCh '_' t with _ | ⟨y, _ | ⟨m, _ | ⟨d, rest⟩⟩⟩ <;>
      simp only [hsp]
    case nil | cons.nil | cons.cons.nil =>
      all_goals
        constructor
        · rintro (h | h)
          · exact Or.inl h
          · exact Or.inr ⟨by simp [h.1], h.2⟩
        · rintro (h | ⟨hmem, hlen⟩)
          · exact Or.inl h
          · rcases List.mem_cons.mp hmem with rfl | hmem2
            · rw [hsp] at hlen; simp at hlen
            · exact Or.inr ⟨hmem2, hlen⟩
    case cons.cons.cons =>
      rw [mem_pushNested_val]
      constructor
      · rintro ((rfl | h) | h)
        · exact Or.inr ⟨by simp, by rw [hsp]; simp⟩
        · exact Or.inl h
        · exact Or.inr ⟨by simp [h.1], h.2⟩
      · rintro (h | ⟨hmem, hlen⟩)
        · exact Or.inl (Or.inr h)
        · rcases List.mem_cons.mp hmem with rfl | hmem2
          · exact Or.inl (Or.inl rfl)
          · exact Or.inr ⟨hmem2, hlen⟩

/-- C2 (amended): a table appears somewhere in the output of
`groupTablesByDate` iff it occurs in the input list and its name splits on
underscore into at least three segments; no numeric test is applied, so the
date classifier plays no part in the membership decision. -/
theorem groupTables_membership (ts : List JStr) (t : JStr) :
    tableAppears t (groupTablesByDate ts) = true ↔
      (t ∈ ts ∧ 3 ≤ (splitCh '_' t).length) := by
  rw [← buildT_mem ts t]
  unfold tableAppears groupTablesByDate
  simp only [List.any_eq_true, beq_iff_eq, List.mem_map]
  constructor
  · rintro ⟨g, ⟨p, hp, rfl⟩, q, hq, x, hx, rfl⟩
    exact ⟨p, mem_jsObjectEntries.mp ((List.perm_insertionSort yearRel _).mem_iff.mp hp),
      q, mem_jsObjectEntries.mp ((List.perm_insertionSort monthRel _).mem_iff.mp hq), hx⟩
  · rintro ⟨p, hp, q, hq, hx⟩
    exact ⟨{ year := p.1, months := List.insertionSort monthRel (jsObjectEntries p.2) },
      ⟨p, (List.perm_insertionSort yearRel _).mem_iff.mpr (mem_jsObjectEntries.mpr hp), rfl⟩,
      q, (List.perm_insertionSort monthRel _).mem_iff.mpr (mem_jsObjectEntries.mpr hq),
      t, hx, rfl⟩

/-- C2 counterexample: `groupTablesByDate` never applies the numeric test of
the classifier, only a segment count: `a_b_c` appears in the grouped output
(under year `a`, month `b`) although classification resolves no year or
month for it. -/
theorem groupTables_membership_cex :
    tableAppears (chars "a_b_c") (groupTablesByDate [chars "a_b_c"]) = true
    ∧ (parseTableName (chars "a_b_c")).year = none
    ∧ (parseTableName (chars "a_b_c")).month = none := by decide

/-- C6 counterexample: a state with `limit` set to `0` is "set", but `0` is
falsy in JavaScript, so the compiled text contains no LIMIT clause at all. -/
theorem limit_zero_cex :
    (QueryBuilderState.limit
        { selectedFields := [{ fieldName := chars "id" }], joins := [],
          limit := some 0 }).isSome = true
    ∧ updateQueryFromState false false
        { selectedFields := [{ fieldName := chars "id" }], joins := [],
          limit := some 0 } = chars "SELECT\n  id\nFROM $\x7bTABLE\x7d"
    ∧ jsIncludes
        (updateQueryFromState false false
          { selectedFields := [{ fieldName := chars "id" }], joins := [],
            limit := some 0 })
        (chars "LIMIT") = false := by decide

/-- C8 counterexample: auto-aliasing does not guarantee distinct output
column names, and a present-but-empty alias is not used verbatim: with
fields `a` (alias present but empty), `b` (alias `x`) and `c` (alias `x`),
the first is rendered with the synthesized alias `a_main` and the other two
both render `AS x`. -/
theorem autoAlias_collision_cex :
    updateQueryFromState false true
      { selectedFields :=
          [{ fieldName := chars "a", «alias» := some [] },
           { fieldName := chars "b", «alias» := some (chars "x") },
           { fieldName := chars "c", «alias» := some (chars "x") }],
        joins := [] } =
      chars "SELECT\n  a AS a_main,\n  b AS x,\n  c AS x\nFROM $\x7bTABLE\x7d"
    ∧ QueryField.«alias» { fieldName := chars "a", «alias» := some [] } = some []
    ∧ ¬ [chars "a_main", chars "x", chars "x"].Nodup := by
  refine ⟨by decide, rfl, by decide⟩

/-- C9 (code bug): the month entries are sorted descending by `parseInt` and
then rebuilt into an object with `Object.fromEntries`; property enumeration
puts canonical-integer keys (such as `10` and `11`) in ascending numeric
order, so the observable month order of the returned object is ascending,
contradicting the claimed descending order.  The stored creation order
(first component below) really is descending; the enumeration order (second
component) is ascending. -/
theorem groupTables_month_order_bug :
    groupTablesByDate [chars "2024_10_a", chars "2024_11_b"] =
      [{ year := chars "2024",
         months := [(chars "11", [chars "2024_11_b"]),
                    (chars "10", [chars "2024_10_a"])] }]
    ∧ ((groupTablesByDate [chars "2024_10_a", chars "2024_11_b"]).map
        fun g => (jsObjectEntries g.months).map Prod.fst) =
      [[chars "10", chars "11"]] := by decide

/-- C8 (amended): with auto-aliasing on, every selected field is rendered in
the SELECT list as its field reference followed by ` AS ` and its output
alias, where the alias is the field alias when present and non-empty and
otherwise the synthesized `fieldName_tableAlias` (with `main` for a missing
or empty table alias); the aliases need not be pairwise distinct. -/
theorem autoAlias_rendering (stateDistinct : Bool) (st : QueryBuilderState)
    (h : st.selectedFields ≠ []) :
    updateQueryFromState stateDistinct true st =
      chars "SELECT" ++ (if stateDistinct then chars " DISTINCT" else []) ++
        chars "\n  " ++
        joinSep (chars ",\n  ")
          (st.selectedFields.map fun f => jsFieldRef f ++ chars " AS " ++ jsFieldAlias f) ++
        chars "\nFROM $\x7bTABLE\x7d" ++
        (joinsPart st ++ wherePart st ++ groupPart st ++ orderPart st ++ limitPart st) := by
  have hne : st.selectedFields.isEmpty = false := by
    simpa [List.isEmpty_iff] using h
  have hrf : renderField true = fun f => jsFieldRef f ++ (chars " AS " ++ jsFieldAlias f) :=
    funext fun f => by simp [renderField, List.append_assoc]
  simp [updateQueryFromState, hne, selectPart, hrf, List.append_assoc]

/-- C8 witness: the rendering theorem at a two-field state. -/
theorem autoAlias_rendering_witness :
    updateQueryFromState false true
      { selectedFields :=
          [{ fieldName := chars "a", tableAlias := some (chars "t") },
           { fieldName := chars "b", «alias» := some (chars "bee") }],
        joins := [] } =
      chars "SELECT\n  t.a AS a_t,\n  b AS bee\nFROM $\x7bTABLE\x7d" :=
  (autoAlias_rendering false
      { selectedFields :=
          [{ fieldName := chars "a", tableAlias := some (chars "t") },
           { fieldName := chars "b", «alias» := some (chars "bee") }],
        joins := [] } (by decide)).trans (by decide)

/-- C10 witness: the theorem at `selection` (substring hit inside a longer
word appends to the field list) and at `myselect` (trimmed text ending in the
letters takes the bare-SELECT branch). -/
theorem insertField_substring_matching_witness :
    insertFieldIntoQuery none none (chars "this is my selection") (chars "id") =
      chars "this is my selection,\n  .id"
    ∧ insertFieldIntoQuery none none (chars "myselect") (chars "id") =
      chars "myselect .id" :=
  ⟨((insertField_substring_matching none none (chars "this is my selection")
        (chars "id") (by decide) (by decide)).1 (by decide)).trans (by decide),
   ((insertField_substring_matching none none (chars "myselect")
        (chars "id") (by decide) (by decide)).2 (by decide)).trans (by decide)⟩
